import Mathlib

/-!
Shallow embedding of `server.py` of the Trackoon repository: a Flask service
that ingests a CSV of logon events, builds a node/edge graph, styles it,
computes one of four layouts, stores the result as the process-wide snapshot
`current_data`, and answers query endpoints over that snapshot.

Modelling conventions:
* Python dicts are insertion-ordered association lists (`dinsert` overwrites
  in place, `dlookup` finds the entry); keys are unique by construction.
* Python floats are rationals (`ℚ`); all arithmetic the claims touch is exact.
* External library calls are explicit function parameters (oracles), so every
  definition stays executable:
  - `parse_time` stands for `dateutil.parser.isoparse(s).timestamp()`
    (`none` = the library raises on a malformed timestamp);
  - `calculate_edge_color` stands for the matplotlib colormap function of
    `(num_edges, max_edges)` (server.py:107-112);
  - `cosA i n` / `sinA i n` stand for `math.cos(i * 2π/n)` / `math.sin(...)`;
  - `rnd lo hi k` stands for the k-th call of `random.uniform(lo, hi)`.
* Code that can raise returns `Except`; the catch-all `try/except` of
  `process_csv` and the route handlers turn a raised exception into the
  structured `{"error": ...}` response, which `Except.error` models.
-/

namespace Trackoon

attribute [local semireducible] Rat.add Rat.mul Rat.inv Rat.sub

/-- Decidable equality of `Except` values, for evaluating the embedding on
concrete inputs. -/
instance {ε α : Type} [DecidableEq ε] [DecidableEq α] : DecidableEq (Except ε α)
  | Except.ok a, Except.ok b =>
    if h : a = b then Decidable.isTrue (by rw [h])
    else Decidable.isFalse (fun hh => h (Except.ok.inj hh))
  | Except.ok _, Except.error _ => Decidable.isFalse (fun hh => Except.noConfusion hh)
  | Except.error _, Except.ok _ => Decidable.isFalse (fun hh => Except.noConfusion hh)
  | Except.error e, Except.error f =>
    if h : e = f then Decidable.isTrue (by rw [h])
    else Decidable.isFalse (fun hh => h (Except.error.inj hh))

/-- A 3-D position as produced by the layout algorithms. -/
structure Pos where
  x : ℚ
  y : ℚ
  z : ℚ
deriving DecidableEq

/-- A graph node as built by `process_csv` (server.py:159-162): the dict
`{"id", "label", "size", "ip"?, "color"?}` plus the `x,y,z` keys merged in by
the layout pass (`none` models an absent dict key). -/
structure Node where
  id : String
  label : String
  size : ℚ := 10
  ip : Option String := none
  color : Option String := none
  pos : Option Pos := none
deriving DecidableEq

/-- An edge dict `{"source", "target", "timestamp", "user", "color"}`
(server.py:164-170). -/
structure Edge where
  source : String
  target : String
  timestamp : ℚ
  user : String
  color : String
deriving DecidableEq

/-- The stored snapshot `current_data = {"nodes": [...], "edges": [...]}`. -/
structure Graph where
  nodes : List Node
  edges : List Edge
deriving DecidableEq

/-- One CSV row, already projected to the five consumed columns; a missing
column is the empty string, matching `row.get(col, '')`. -/
structure Row where
  eventTime : String := ""
  computer : String := ""
  ipAddress : String := ""
  user : String := ""
  ipResolved : String := ""

/-- Python-dict insertion: overwrite in place if the key exists, else append. -/
def dinsert {κ α : Type} [DecidableEq κ] : List (κ × α) → κ → α → List (κ × α)
  | [], k, v => [(k, v)]
  | p :: rest, k, v => if p.1 = k then (k, v) :: rest else p :: dinsert rest k v

/-- Python-dict lookup (`m[k]` / `k in m`). -/
def dlookup {κ α : Type} [DecidableEq κ] : List (κ × α) → κ → Option α
  | [], _ => none
  | p :: rest, k => if p.1 = k then some p.2 else dlookup rest k

/-- Python `m.get(k, d)`. -/
def dgetD {κ α : Type} [DecidableEq κ] (m : List (κ × α)) (k : κ) (d : α) : α :=
  (dlookup m k).getD d

/-- A `for`-loop writing a batch of entries into a dict. -/
def dinserts {κ α : Type} [DecidableEq κ] (m : List (κ × α)) (l : List (κ × α)) :
    List (κ × α) :=
  l.foldl (fun acc p => dinsert acc p.1 p.2) m

/-- Lookup of the node dict `nodes[i]` keyed by node id. -/
def nfind : List Node → String → Option Node
  | [], _ => none
  | n :: rest, i => if n.id = i then some n else nfind rest i

/-- In-place mutation of the node stored under id `i`. -/
def nupdate (ns : List Node) (i : String) (f : Node → Node) : List Node :=
  ns.map (fun n => if n.id = i then f n else n)

/-- Python's `s.split(c)` for a single-character separator, over char lists. -/
def splitOnChar (c : Char) : List Char → List (List Char)
  | [] => [[]]
  | x :: xs =>
    match splitOnChar c xs with
    | [] => if x = c then [[], []] else [[x]]
    | y :: ys => if x = c then [] :: y :: ys else (x :: y) :: ys

/-- `strip_domain` (server.py:104-105): `hostname.split('.')[0]`. -/
def strip_domain (hostname : String) : String :=
  String.mk ((splitOnChar '.' hostname.toList).headD [])

/-- Lexicographic code-point comparison of char lists (the order Python's
string comparison uses). -/
def charListLt : List Char → List Char → Bool
  | [], [] => false
  | [], _ :: _ => true
  | _ :: _, [] => false
  | a :: as, b :: bs =>
    if a.toNat < b.toNat then true
    else if b.toNat < a.toNat then false
    else charListLt as bs

/-- `tuple(sorted([a, b]))` on two strings (server.py:174). -/
def sortPair (a b : String) : String × String :=
  if charListLt b.toList a.toList then (b, a) else (a, b)

/-- Python `max(l)` with a `default` for the empty list; `max(l)` over a
nonempty list of naturals equals its fold with `Nat.max`. -/
def pyMax (l : List ℕ) (dflt : ℕ) : ℕ :=
  match l with
  | [] => dflt
  | _ => l.foldr Nat.max 0

/-- Upward search for the least `g' ≥ g` with `n ≤ g' * g'` (fuel-bounded so
that it computes by structural recursion). -/
def ceilSqrtFrom (n : ℕ) : ℕ → ℕ → ℕ
  | g, 0 => g
  | g, fuel + 1 => if n ≤ g * g then g else ceilSqrtFrom n (g + 1) fuel

/-- `math.ceil(math.sqrt n)` for a natural number: the least `g` with
`n ≤ g * g`. -/
def ceilSqrt (n : ℕ) : ℕ :=
  ceilSqrtFrom n 0 (n + 1)

/-- Digit-string to number (helper for the Python `int`/`strptime` models). -/
def digitsToNat? (cs : List Char) : Option ℕ :=
  if cs ≠ [] ∧ cs.all (fun c => c.isDigit) then
    some (cs.foldl (fun a c => a * 10 + (c.toNat - 48)) 0)
  else none

/-- Python `int(s)` on a string: optional surrounding whitespace, optional
sign, then decimal digits; anything else raises `ValueError` (`none`). -/
def pyInt? (cs : List Char) : Option Int :=
  let t := ((cs.dropWhile (fun c => c.isWhitespace)).reverse.dropWhile
    (fun c => c.isWhitespace)).reverse
  match t with
  | '-' :: ds => (digitsToNat? ds).map (fun n => -(n : Int))
  | '+' :: ds => (digitsToNat? ds).map (fun n => (n : Int))
  | ds => (digitsToNat? ds).map (fun n => (n : Int))

/-- Degree of id `i` in an edge list: occurrences as source plus occurrences
as target, exactly as `node_edge_count` accumulates it (server.py:179-180). -/
def degCount (es : List Edge) (i : String) : ℕ :=
  (es.countP (fun e => decide (e.source = i))) +
    (es.countP (fun e => decide (e.target = i)))

/-- `calculate_node_size` (server.py:114-117). -/
def calculate_node_size (num_edges max_edges : ℚ) : ℚ :=
  10 + num_edges / max_edges * 20

/-- `calculate_grid_layout` (server.py:18-25); `grid_size` is
`ceilSqrt node_list.length`. -/
def calculate_grid_layout (node_list : List Node) (distance : ℚ := 300) :
    List (String × Pos) :=
  dinserts [] (node_list.enum.map (fun p =>
    (p.2.id, ⟨((p.1 % ceilSqrt node_list.length : ℕ) : ℚ) * distance,
              ((p.1 / ceilSqrt node_list.length : ℕ) : ℚ) * distance, 0⟩)))

/-- `calculate_circular_layout` (server.py:27-33); on an empty node list the
`2π/len` computation raises `ZeroDivisionError`. -/
def calculate_circular_layout (cosA sinA : ℕ → ℕ → ℚ) (node_list : List Node)
    (radius : ℚ := 300) : Except String (List (String × Pos)) :=
  if node_list.length = 0 then Except.error "division by zero"
  else Except.ok (dinserts [] (node_list.enum.map (fun p =>
    (p.2.id, ⟨radius * cosA p.1 node_list.length,
              radius * sinA p.1 node_list.length, 0⟩))))

/-- `calculate_random_layout` (server.py:35-43); node number `i` consumes the
uniform draws `3i`, `3i+1`, `3i+2`. -/
def calculate_random_layout (rnd : ℚ → ℚ → ℕ → ℚ) (node_list : List Node)
    (range_x : ℚ × ℚ := (-10000, 10000)) (range_y : ℚ × ℚ := (-10000, 10000))
    (range_z : ℚ × ℚ := (-10000, 10000)) : List (String × Pos) :=
  dinserts [] (node_list.enum.map (fun p =>
    (p.2.id, ⟨rnd range_x.1 range_x.2 (3 * p.1),
              rnd range_y.1 range_y.2 (3 * p.1 + 1),
              rnd range_z.1 range_z.2 (3 * p.1 + 2)⟩)))

/-- Classification of a node by the grouping test of `calculate_smart_layout`
(server.py:55-63): `grouped t` when `node.get('ip')` is truthy, contains `'.'`,
splits into exactly four octets and `int(octets[2])` parses to `t`;
`malformed` when the split has four parts but `int(octets[2])` raises
`ValueError`; otherwise the node is skipped (`ungroupable`). -/
inductive IpClass where
  | ungroupable
  | grouped (third : Int)
  | malformed
deriving DecidableEq

/-- Compute the `IpClass` of a node (the body of the grouping loop). -/
def ipClass (n : Node) : IpClass :=
  match n.ip with
  | none => IpClass.ungroupable
  | some ip =>
    if ip = "" then IpClass.ungroupable
    else if '.' ∈ ip.toList then
      let octets := splitOnChar '.' ip.toList
      if h : octets.length = 4 then
        match pyInt? (octets.get ⟨2, by omega⟩) with
        | some t => IpClass.grouped t
        | none => IpClass.malformed
      else IpClass.ungroupable
    else IpClass.ungroupable

/-- One step of the `edge_count` accumulation of `calculate_smart_layout`
(server.py:50-52); an edge endpoint absent from the dict raises `KeyError`. -/
def ecStep (m : List (String × ℕ)) (e : Edge) :
    Except Unit (List (String × ℕ)) :=
  match dlookup m e.source with
  | none => Except.error ()
  | some c =>
    match dlookup (dinsert m e.source (c + 1)) e.target with
    | none => Except.error ()
    | some c2 => Except.ok (dinsert (dinsert m e.source (c + 1)) e.target (c2 + 1))

/-- The `edge_count` accumulation of `calculate_smart_layout`
(server.py:48-52). -/
def smartEdgeCounts (ns : List Node) (es : List Edge) :
    Except Unit (List (String × ℕ)) :=
  es.foldlM ecStep (ns.foldl (fun m n => dinsert m n.id 0) [])

/-- One step of the grouping loop of `calculate_smart_layout`
(server.py:55-63), phrased through `ipClass`. -/
def smartGroupStep (gs : List (Int × List Node)) (n : Node) :
    Except Unit (List (Int × List Node)) :=
  match ipClass n with
  | IpClass.ungroupable => Except.ok gs
  | IpClass.grouped t => Except.ok (dinsert gs t (dgetD gs t [] ++ [n]))
  | IpClass.malformed => Except.error ()

/-- The full grouping loop of `calculate_smart_layout`. -/
def smartGroups (ns : List Node) : Except Unit (List (Int × List Node)) :=
  ns.foldlM smartGroupStep []

/-- The nested placement loops of `calculate_smart_layout` flattened in loop
order (over `groups.items()`, then over a group's nodes): each element is
`(group index, in-group index, group size, node)`. -/
def smartFlat (groups : List (Int × List Node)) : List (ℕ × ℕ × ℕ × Node) :=
  groups.enum.flatMap (fun gi =>
    gi.2.2.enum.map (fun si => (gi.1, si.1, gi.2.2.length, si.2)))

/-- The position of the grouped node placed `k`-th overall, in group number
`gi` of `total`, at in-group index `si` of a group of `len` members
(server.py:69-84): group center on the radius-4000 circle, member on the
radius-600 subcircle, `±300` jitter on x/y (draws `2k`, `2k+1`), and z equal
to the node's edge count times 50. -/
def smartPos (cosA sinA : ℕ → ℕ → ℚ) (rnd : ℚ → ℚ → ℕ → ℚ)
    (ec : List (String × ℕ)) (total k gi si len : ℕ) (n : Node) : Pos :=
  Pos.mk (4000 * cosA gi total + 600 * cosA si len + rnd (-300) 300 (2 * k))
         (4000 * sinA gi total + 600 * sinA si len + rnd (-300) 300 (2 * k + 1))
         (((dgetD ec n.id 0 : ℕ) : ℚ) * 50)

/-- All grouped-node position entries, in placement order. -/
def smartPlacements (cosA sinA : ℕ → ℕ → ℚ) (rnd : ℚ → ℚ → ℕ → ℚ)
    (ec : List (String × ℕ)) (groups : List (Int × List Node)) :
    List (String × Pos) :=
  (smartFlat groups).enum.map (fun ki =>
    (ki.2.2.2.2.id, smartPos cosA sinA rnd ec groups.length ki.1 ki.2.1
      ki.2.2.1 ki.2.2.2.1 ki.2.2.2.2))

/-- The secondary `±5000` random placement of the ungrouped nodes
(server.py:86-96); ungrouped node number `i` consumes draws
`ctr+3i .. ctr+3i+2`. -/
def smartUngrouped (rnd : ℚ → ℚ → ℕ → ℚ) (ns : List Node)
    (ps : List (String × Pos)) (ctr : ℕ) : List (String × Pos) :=
  (ns.filter (fun n => (dlookup ps n.id).isNone)).enum.map (fun ip =>
    (ip.2.id, Pos.mk (rnd (-5000) 5000 (ctr + 3 * ip.1))
                     (rnd (-5000) 5000 (ctr + 3 * ip.1 + 1))
                     (rnd (-5000) 5000 (ctr + 3 * ip.1 + 2))))

/-- The body of `calculate_smart_layout` (server.py:45-98) before the
catch-all `except`.  `ZeroDivisionError` on `2π/0` when no group exists, and
`KeyError`/`ValueError` from the earlier loops, surface as `Except.error ()`
(caught at server.py:100-102). -/
def smart_core (cosA sinA : ℕ → ℕ → ℚ) (rnd : ℚ → ℚ → ℕ → ℚ)
    (ns : List Node) (es : List Edge) : Except Unit (List (String × Pos)) := do
  let ec ← smartEdgeCounts ns es
  let groups ← smartGroups ns
  if groups.length = 0 then Except.error ()
  else
    Except.ok (dinserts (dinserts [] (smartPlacements cosA sinA rnd ec groups))
      (smartUngrouped rnd ns
        (dinserts [] (smartPlacements cosA sinA rnd ec groups))
        (2 * (smartFlat groups).length)))

/-- `calculate_smart_layout` (server.py:45-102): the catch-all `except`
converts any raised exception into the empty result `{}`. -/
def calculate_smart_layout (cosA sinA : ℕ → ℕ → ℚ) (rnd : ℚ → ℚ → ℕ → ℚ)
    (ns : List Node) (es : List Edge) : List (String × Pos) :=
  match smart_core cosA sinA rnd ns es with
  | Except.ok ps => ps
  | Except.error _ => []

/-- The first pass of `process_csv` (server.py:131-136): build the
`ip_to_hostname` reverse-lookup dict. -/
def build_ipmap (rows : List Row) : List (String × String) :=
  rows.foldl (fun m r =>
    if r.ipAddress ≠ "" ∧ r.ipResolved ≠ "" then
      dinsert m r.ipAddress (strip_domain r.ipResolved)
    else m) []

/-- The intermediate state of the row loop of `process_csv`: the `nodes`
dict (kept in insertion order), the `edges` list, the `edge_groups` dict and
the `node_edge_count` dict. -/
structure BState where
  nodes : List Node
  edges : List Edge
  groups : List ((String × String) × List Edge)
  counts : List (String × ℕ)

/-- The source id a processed row resolves to (server.py:149-157): the
resolved hostname when the IP is in the mapping, else the raw IP. -/
def sourceIdOf (ipmap : List (String × String)) (ip : String) : String :=
  match dlookup ipmap ip with
  | some h => h
  | none => ip

/-- The source label of a processed row (server.py:151 and 157). -/
def sourceLabelOf (ipmap : List (String × String)) (ip : String) : String :=
  match dlookup ipmap ip with
  | some h => h ++ " (" ++ ip ++ ")"
  | none => ip

/-- The label the target (Computer) node receives when it is first created
(server.py:162): it embeds the row's source IP when that IP resolves. -/
def computerLabelOf (ipmap : List (String × String)) (computer ip : String) :
    String :=
  if (dlookup ipmap ip).isSome then computer ++ " (" ++ ip ++ ")" else computer

/-- The label/ip backfill for an already-known source node (server.py:152-154). -/
def backfill_source (ipmap : List (String × String)) (nodes : List Node)
    (ip : String) : List Node :=
  match dlookup ipmap ip with
  | some h =>
    match nfind nodes h with
    | some n =>
      if n.ip = none then
        nupdate nodes h (fun m =>
          { m with label := sourceLabelOf ipmap ip, ip := some ip })
      else nodes
    | none => nodes
  | none => nodes

/-- Python's `if n.id not in nodes: nodes[n.id] = n` (server.py:159-162). -/
def addIfAbsent (nodes : List Node) (n : Node) : List Node :=
  match nfind nodes n.id with
  | some _ => nodes
  | none => nodes ++ [n]

/-- The node the row's source creates when absent (server.py:160). -/
def sourceNodeOf (ipmap : List (String × String)) (ip : String) : Node :=
  { id := sourceIdOf ipmap ip, label := sourceLabelOf ipmap ip,
    size := 10, ip := some ip }

/-- The node the row's target creates when absent (server.py:162). -/
def computerNodeOf (ipmap : List (String × String)) (computer ip : String) :
    Node :=
  { id := computer, label := computerLabelOf ipmap computer ip, size := 10 }

/-- The label/ip backfill and the two node creations of a processed row
(server.py:149-162). -/
def build_nodes (ipmap : List (String × String)) (nodes : List Node)
    (computer ip : String) : List Node :=
  addIfAbsent
    (addIfAbsent (backfill_source ipmap nodes ip) (sourceNodeOf ipmap ip))
    (computerNodeOf ipmap computer ip)

/-- The state update a processed row with parsed timestamp `ts` performs
(server.py:149-180). -/
def build_apply (ipmap : List (String × String)) (s : BState) (row : Row)
    (ts : ℚ) : BState :=
  let computer := strip_domain row.computer
  let ip := row.ipAddress
  let source_id := sourceIdOf ipmap ip
  let edge : Edge := { source := source_id, target := computer,
                       timestamp := ts, user := row.user, color := "" }
  let key := sortPair source_id computer
  let counts1 := dinsert s.counts source_id (dgetD s.counts source_id 0 + 1)
  { nodes := build_nodes ipmap s.nodes computer ip,
    edges := s.edges ++ [edge],
    groups := dinsert s.groups key (dgetD s.groups key [] ++ [edge]),
    counts := dinsert counts1 computer (dgetD counts1 computer 0 + 1) }

/-- One iteration of the row loop of `process_csv` (server.py:138-180).
`parse_time` models `parser.isoparse(...).timestamp()`; its failure raises,
aborting the whole import (caught at server.py:222-224). -/
def build_step (parse_time : String → Option ℚ) (ipmap : List (String × String))
    (s : BState) (row : Row) : Except String BState :=
  if row.eventTime = "" ∨ strip_domain row.computer = "" ∨ row.ipAddress = ""
  then Except.ok s
  else
    match parse_time row.eventTime with
    | none => Except.error ("Unknown string format: " ++ row.eventTime)
    | some time_created => Except.ok (build_apply ipmap s row time_created)

/-- The node styling loop of `process_csv` (server.py:184-189): set `color`
from the resolver mapping and `size` from the degree statistics; a node id
missing from `node_edge_count` would raise `KeyError` (it never does). -/
def styleNodes (ipmap : List (String × String)) (counts : List (String × ℕ))
    (max_node_edges : ℕ) : List Node → Except String (List Node)
  | [] => Except.ok []
  | n :: rest =>
    match dlookup counts n.id with
    | none => Except.error "KeyError"
    | some c => do
      let rest' ← styleNodes ipmap counts max_node_edges rest
      Except.ok ({ n with
        color := some (if (match n.ip with
          | some ip => (dlookup ipmap ip).isSome
          | none => false) then "blue" else "red"),
        size := calculate_node_size (c : ℚ) (max_node_edges : ℚ) } :: rest')

/-- The edge coloring loop of `process_csv` (server.py:193-198).  The source
mutates the edge dicts shared between `edges` and `edge_groups`; functionally
each edge receives the color of its own group (the entry of `edge_groups`
under its sorted pair, which always exists). -/
def colorEdges (calculate_edge_color : ℕ → ℕ → String)
    (groups : List ((String × String) × List Edge)) (max_edges : ℕ)
    (es : List Edge) : List Edge :=
  es.map (fun e =>
    let c := calculate_edge_color
      (dgetD groups (sortPair e.source e.target) []).length max_edges
    { e with color := c })

/-- The error message returned when the smart layout yields no positions
(server.py:211 and 361). -/
def ipErrorMsg : String :=
  "One or more nodes are missing IP addresses. All nodes must have IP addresses."

/-- The layout dispatch shared by `process_csv` (server.py:202-213) and
`update_layout` (server.py:352-363): unknown names fall back to the random
layout, and an empty smart-layout result becomes the structured IP error. -/
def layoutPositions (cosA sinA : ℕ → ℕ → ℚ) (rnd : ℚ → ℚ → ℕ → ℚ)
    (layout : String) (node_list : List Node) (es : List Edge) :
    Except String (List (String × Pos)) :=
  if layout = "grid" then Except.ok (calculate_grid_layout node_list)
  else if layout = "circular" then calculate_circular_layout cosA sinA node_list
  else if layout = "random" then Except.ok (calculate_random_layout rnd node_list)
  else if layout = "smart" then
    if (calculate_smart_layout cosA sinA rnd node_list es).isEmpty then
      Except.error ipErrorMsg
    else Except.ok (calculate_smart_layout cosA sinA rnd node_list es)
  else Except.ok (calculate_random_layout rnd node_list)

/-- The position update loop (server.py:215-219 and 365-369): merge the
computed coordinates into each node, skipping ids without a position. -/
def applyPositions (ps : List (String × Pos)) (ns : List Node) : List Node :=
  ns.map (fun n =>
    match dlookup ps n.id with
    | some p => { n with pos := some p }
    | none => n)

/-- `process_csv` (server.py:119-226).  Returns the built snapshot or the
structured error of the catch-all handler.  `max(...)` over the values of an
empty `edge_groups` dict raises `ValueError` (server.py:191), so an import
whose row loop appended no edge fails. -/
def process_csv (parse_time : String → Option ℚ)
    (calculate_edge_color : ℕ → ℕ → String) (cosA sinA : ℕ → ℕ → ℚ)
    (rnd : ℚ → ℚ → ℕ → ℚ) (rows : List Row) (layout : String := "grid") :
    Except String Graph := do
  let s ← rows.foldlM (build_step parse_time (build_ipmap rows)) ⟨[], [], [], []⟩
  let node_list ← styleNodes (build_ipmap rows) s.counts
    (pyMax (s.counts.map Prod.snd) 1) s.nodes
  if s.groups.isEmpty then Except.error "max() arg is an empty sequence"
  else
    let ps ← layoutPositions cosA sinA rnd layout node_list
      (colorEdges calculate_edge_color s.groups
        (pyMax (s.groups.map (fun gg => gg.2.length)) 0) s.edges)
    Except.ok ⟨applyPositions ps node_list,
      colorEdges calculate_edge_color s.groups
        (pyMax (s.groups.map (fun gg => gg.2.length)) 0) s.edges⟩

/-- The `/upload` handler (server.py:232-246) acting on the stored snapshot:
returns the response and the new value of `current_data` (which `process_csv`
only assigns after a fully successful build, server.py:221). -/
def upload_file (parse_time : String → Option ℚ)
    (calculate_edge_color : ℕ → ℕ → String) (cosA sinA : ℕ → ℕ → ℚ)
    (rnd : ℚ → ℚ → ℕ → ℚ) (st : Option Graph) (rows : List Row)
    (layout : String) : Except String Graph × Option Graph :=
  match process_csv parse_time calculate_edge_color cosA sinA rnd rows layout with
  | Except.ok g =>
    if g.nodes.isEmpty || g.edges.isEmpty then
      (Except.error "Invalid data structure", some g)
    else (Except.ok g, some g)
  | Except.error e => (Except.error e, st)

/-- The subgraph responses of `/highlight`, `/filter`, `/filter_by_user`. -/
structure SubGraph where
  nodes : List Node
  edges : List Edge
deriving DecidableEq

/-- The `/highlight` handler (server.py:248-273) on a given snapshot; the
request body's `node_id` is `none` when absent, and a falsy value (absent or
empty) yields the 400 "Node ID is required" error. -/
def highlight_data (g : Graph) (node_id : Option String) :
    Except String SubGraph :=
  match node_id with
  | none => Except.error "Node ID is required"
  | some nid =>
    if nid = "" then Except.error "Node ID is required"
    else
      let highlighted_edges := g.edges.filter
        (fun e => decide (e.source = nid) || decide (e.target = nid))
      let highlighted_ids := nid :: highlighted_edges.foldr
        (fun e acc => e.source :: e.target :: acc) []
      Except.ok ⟨g.nodes.filter (fun n => decide (n.id ∈ highlighted_ids)),
                 highlighted_edges⟩

/-- Day count from the civil epoch 1970-01-01 of a proleptic Gregorian date
with `1 ≤ y`, `1 ≤ m ≤ 12`, `1 ≤ d` (the standard era/year-of-era
computation, all divisions on nonnegative operands). -/
def days_from_civil (y m d : ℕ) : Int :=
  let y1 := if m ≤ 2 then y - 1 else y
  let era := y1 / 400
  let yoe := y1 - era * 400
  let mp := if 2 < m then m - 3 else m + 9
  let doy := (153 * mp + 2) / 5 + d - 1
  let doe := yoe * 365 + yoe / 4 - yoe / 100 + doy
  ((era * 146097 + doe : ℕ) : Int) - 719468

/-- Days in a month of the proleptic Gregorian calendar. -/
def daysInMonth (y m : ℕ) : ℕ :=
  if m = 2 then
    (if y % 4 = 0 ∧ (y % 100 ≠ 0 ∨ y % 400 = 0) then 29 else 28)
  else if m = 4 ∨ m = 6 ∨ m = 9 ∨ m = 11 then 30 else 31

/-- Parse a `YYYY-MM-DDTHH:MM` string into its five numeric components,
validating the ranges `datetime.strptime` enforces. -/
def parseYMDHM (s : String) : Option (ℕ × ℕ × ℕ × ℕ × ℕ) :=
  match splitOnChar 'T' s.toList with
  | [datePart, timePart] =>
    match splitOnChar '-' datePart, splitOnChar ':' timePart with
    | [ys, ms, ds], [hs, mins] =>
      match digitsToNat? ys, digitsToNat? ms, digitsToNat? ds,
            digitsToNat? hs, digitsToNat? mins with
      | some y, some mo, some d, some h, some mi =>
        if 1 ≤ y ∧ 1 ≤ mo ∧ mo ≤ 12 ∧ 1 ≤ d ∧ d ≤ daysInMonth y mo ∧
            h < 24 ∧ mi < 60 then
          some (y, mo, d, h, mi)
        else none
      | _, _, _, _, _ => none
    | _, _ => none
  | _ => none

/-- `datetime.strptime(s, "%Y-%m-%dT%H:%M").timestamp()` modelled in a UTC
locale: naive seconds since the epoch. -/
def strptimeYMDHM (s : String) : Option ℚ :=
  (parseYMDHM s).map (fun c =>
    ((days_from_civil c.1 c.2.1 c.2.2.1 * 86400 +
        (c.2.2.2.1 : Int) * 3600 + (c.2.2.2.2 : Int) * 60 : Int) : ℚ))

/-- The `/filter` handler (server.py:292-317) on a given snapshot: the end
bound is the parsed `end_date` plus `timedelta(days=1) - timedelta(seconds=1)`,
i.e. plus 86399 seconds after the given minute. -/
def filter_data (g : Graph) (start_date end_date : String) :
    Except String SubGraph :=
  match strptimeYMDHM start_date, strptimeYMDHM end_date with
  | some st, some en =>
    let start_timestamp := st
    let end_timestamp := en + 86400 - 1
    let filtered_edges := g.edges.filter (fun e =>
      decide (start_timestamp ≤ e.timestamp ∧ e.timestamp ≤ end_timestamp))
    let ids := filtered_edges.foldr (fun e acc => e.source :: e.target :: acc) []
    Except.ok ⟨g.nodes.filter (fun n => decide (n.id ∈ ids)), filtered_edges⟩
  | _, _ => Except.error "time data does not match format"

/-- The `/layout` handler (server.py:340-376) as a pure function of the
snapshot: recompute positions, leave ids/edges untouched.  On an error the
stored snapshot is returned unchanged by the route (the error paths fire
before any mutation). -/
def update_layout (cosA sinA : ℕ → ℕ → ℚ) (rnd : ℚ → ℚ → ℕ → ℚ)
    (g : Graph) (layout : String) : Except String Graph := do
  let ps ← layoutPositions cosA sinA rnd layout g.nodes g.edges
  Except.ok ⟨applyPositions ps g.nodes, g.edges⟩

/-- One successful `/layout` recomputation relating two stored snapshots. -/
def LayoutStep (g g' : Graph) : Prop :=
  ∃ cosA sinA rnd layout, update_layout cosA sinA rnd g layout = Except.ok g'

/-- Any finite sequence of successful `/layout` recomputations. -/
def LayoutReach : Graph → Graph → Prop :=
  Relation.ReflTransGen LayoutStep

/-- Referential integrity of a snapshot: every edge endpoint id names a node. -/
def refOk (ns : List Node) (es : List Edge) : Prop :=
  ∀ e ∈ es, e.source ∈ ns.map Node.id ∧ e.target ∈ ns.map Node.id

instance (ns : List Node) (es : List Edge) : Decidable (refOk ns es) := by
  unfold refOk; infer_instance

/-- Well-formedness facts every snapshot built by `process_csv` enjoys:
distinct node ids, referential integrity and positive degrees. -/
def GraphWF (g : Graph) : Prop :=
  (g.nodes.map Node.id).Nodup ∧ refOk g.nodes g.edges ∧
    ∀ n ∈ g.nodes, 1 ≤ degCount g.edges n.id

instance (g : Graph) : Decidable (GraphWF g) := by
  unfold GraphWF; infer_instance

/-- Size of the edge group (same unordered endpoint pair) of `(a, b)`. -/
def groupSize (es : List Edge) (a b : String) : ℕ :=
  (es.filter (fun x => decide (sortPair x.source x.target = sortPair a b))).length

/-- The maximum edge-group size over all groups of an edge list. -/
def maxGroupSize (es : List Edge) : ℕ :=
  pyMax (es.map (fun e => groupSize es e.source e.target)) 0

/-- The maximum node degree over the nodes of a snapshot. -/
def maxNodeDeg (g : Graph) : ℕ :=
  pyMax (g.nodes.map (fun n => degCount g.edges n.id)) 1

/-- The invariant the row loop of `process_csv` maintains: node ids are
distinct, edges reference existing nodes, `node_edge_count` records exactly
the degrees with every node id present and positive, and `edge_groups`
holds, under each sorted pair, exactly the edges with that pair. -/
structure Inv (s : BState) : Prop where
  nodupIds : (s.nodes.map Node.id).Nodup
  refs : refOk s.nodes s.edges
  countsVal : ∀ k, dgetD s.counts k 0 = degCount s.edges k
  countsKeys : ∀ k, (dlookup s.counts k).isSome ↔ k ∈ s.nodes.map Node.id
  countsNodup : (s.counts.map Prod.fst).Nodup
  degPos : ∀ k ∈ s.nodes.map Node.id, 1 ≤ degCount s.edges k
  groupsVal : ∀ p, dgetD s.groups p [] =
    s.edges.filter (fun e => decide (sortPair e.source e.target = p))
  groupsNE : ∀ pl ∈ s.groups, pl.2 ≠ []
  groupsNodup : (s.groups.map Prod.fst).Nodup

/-- A row the builder loop actually processes (all three required fields
non-empty) whose `EventTime` the timestamp parser rejects. -/
def processedBadRow (parse_time : String → Option ℚ) (r : Row) : Prop :=
  r.eventTime ≠ "" ∧ strip_domain r.computer ≠ "" ∧ r.ipAddress ≠ "" ∧
    parse_time r.eventTime = none

instance (parse_time : String → Option ℚ) (r : Row) :
    Decidable (processedBadRow parse_time r) := by
  unfold processedBadRow; infer_instance

/-- Modelled from the spec (claim C3's reading, for comparison with
`filter_data`): the last included second is the end of `end_date`'s calendar
day, i.e. 23:59:59 of the date written in `end_date`, regardless of the
time-of-day component. -/
def spec_end_of_day (end_date : String) : Option ℚ :=
  (parseYMDHM end_date).map (fun c =>
    ((days_from_civil c.1 c.2.1 c.2.2.1 * 86400 + 86399 : Int) : ℚ))

/-- Modelled from the spec (claim C3's reading): edges whose timestamp lies
in the inclusive range from `start_date` to the end of `end_date`'s calendar
day. -/
def spec_filter_edges (g : Graph) (start_date end_date : String) :
    Option (List Edge) :=
  match strptimeYMDHM start_date, spec_end_of_day end_date with
  | some st, some eod =>
    some (g.edges.filter (fun e => decide (st ≤ e.timestamp ∧ e.timestamp ≤ eod)))
  | _, _ => none

/-- Concrete timestamp-parser oracle for witnesses: rejects exactly the
string "bad". -/
def pt0 : String → Option ℚ := fun s => if s = "bad" then none else some 5

/-- Concrete edge-color oracle for witnesses. -/
def ec0 : ℕ → ℕ → String := fun _ _ => "#000000"

/-- Concrete cosine oracle for witnesses. -/
def cA0 : ℕ → ℕ → ℚ := fun _ _ => 0

/-- Concrete sine oracle for witnesses. -/
def sA0 : ℕ → ℕ → ℚ := fun _ _ => 0

/-- Concrete `random.uniform` oracle for witnesses. -/
def rn0 : ℚ → ℚ → ℕ → ℚ := fun _ _ _ => 0

/-- Two well-formed CSV rows (the spec's running example). -/
def rows0 : List Row :=
  [{ eventTime := "t1", computer := "host1.local", ipAddress := "10.0.0.1",
     user := "alice", ipResolved := "client1.local" },
   { eventTime := "t2", computer := "host1.local", ipAddress := "10.0.0.1",
     user := "bob", ipResolved := "client1.local" }]

/-- `rows0` with a malformed-EventTime row appended. -/
def rowsBad : List Row :=
  rows0 ++ [{ eventTime := "bad", computer := "host2.local",
              ipAddress := "10.0.0.2", user := "carol", ipResolved := "" }]

/-- The snapshot the grid-layout import of `rows0` builds. -/
def snap0 : Graph :=
  match process_csv pt0 ec0 cA0 sA0 rn0 rows0 "grid" with
  | Except.ok g => g
  | Except.error _ => ⟨[], []⟩

/-- Rows whose `IpResolved` strips to the empty hostname, so that the import
creates a node whose id is the empty string. -/
def rowsEmptyId : List Row :=
  [{ eventTime := "t1", computer := "host1.local", ipAddress := "1.2.3.4",
     user := "alice", ipResolved := ".corp" }]

/-- The snapshot built from `rowsEmptyId`; it stores a node with id `""`. -/
def snapEmptyId : Graph :=
  match process_csv pt0 ec0 cA0 sA0 rn0 rowsEmptyId "grid" with
  | Except.ok g => g
  | Except.error _ => ⟨[], []⟩

/-- A stored snapshot with one edge timestamped 2023-01-02T06:00 (UTC model),
used against `/filter`. -/
def gC3 : Graph :=
  ⟨[{ id := "a", label := "a" }, { id := "b", label := "b" }],
   [{ source := "a", target := "b", timestamp := 1672639200, user := "u",
      color := "" }]⟩

/-- A node with a groupable dotted-quad IP. -/
def smartNodeGood : Node := { id := "g", label := "g", ip := some "10.0.0.1" }

/-- A node whose IP splits into four octets whose third is not an integer. -/
def smartNodeBad : Node := { id := "b", label := "b", ip := some "1.2.x.4" }

def styleFn (ipmap : List (String × String)) (counts : List (String × ℕ))
    (max_node_edges : ℕ) (n : Node) : Node :=
  { n with
    color := some (if (match n.ip with
      | some ip => (dlookup ipmap ip).isSome
      | none => false) then "blue" else "red"),
    size := calculate_node_size ((dgetD counts n.id 0 : ℕ) : ℚ)
      ((max_node_edges : ℕ) : ℚ) }

theorem dlookup_dinsert {κ α : Type} [DecidableEq κ] (m : List (κ × α)) (k : κ)
    (v : α) (k' : κ) :
    dlookup (dinsert m k v) k' = if k' = k then some v else dlookup m k' := by
  induction m with
  | nil =>
    simp only [dinsert, dlookup]
    by_cases h : k' = k
    · simp [h]
    · simp [h, Ne.symm h]
  | cons p rest ih =>
    simp only [dinsert]
    by_cases hp : p.1 = k
    · simp only [if_pos hp, dlookup]
      by_cases h : k' = k
      · simp [h]
      · have hpk : ¬ p.1 = k' := fun hh => h (hp.symm.trans hh).symm
        simp [h, Ne.symm h, hpk]
    · simp only [if_neg hp, dlookup, ih]
      by_cases hq : p.1 = k'
      · have : ¬ k' = k := fun hh => hp (hq.trans hh)
        simp [hq, this]
      · simp [hq]

theorem mem_keys_dlookup_isSome {κ α : Type} [DecidableEq κ] (m : List (κ × α))
    (k : κ) : (dlookup m k).isSome ↔ k ∈ m.map Prod.fst := by
  induction m with
  | nil => simp [dlookup]
  | cons p rest ih =>
    simp only [dlookup, List.map_cons, List.mem_cons]
    by_cases hp : p.1 = k
    · simp [hp]
    · simp [hp, ih, Ne.symm hp]

theorem dlookup_eq_none_iff {κ α : Type} [DecidableEq κ] (m : List (κ × α))
    (k : κ) : dlookup m k = none ↔ k ∉ m.map Prod.fst := by
  rw [← mem_keys_dlookup_isSome]
  cases dlookup m k <;> simp

theorem mem_keys_dinsert {κ α : Type} [DecidableEq κ] (m : List (κ × α)) (k : κ)
    (v : α) (k' : κ) :
    k' ∈ (dinsert m k v).map Prod.fst ↔ k' = k ∨ k' ∈ m.map Prod.fst := by
  induction m with
  | nil => simp [dinsert]
  | cons p rest ih =>
    simp only [dinsert]
    by_cases hp : p.1 = k
    · subst hp
      simp
    · simp only [if_neg hp, List.map_cons, List.mem_cons, ih]
      tauto

theorem nodup_keys_dinsert {κ α : Type} [DecidableEq κ] (m : List (κ × α))
    (k : κ) (v : α) (h : (m.map Prod.fst).Nodup) :
    ((dinsert m k v).map Prod.fst).Nodup := by
  induction m with
  | nil => simp [dinsert]
  | cons p rest ih =>
    simp only [List.map_cons, List.nodup_cons] at h
    simp only [dinsert]
    by_cases hp : p.1 = k
    · subst hp
      simp [List.nodup_cons, h.1, h.2]
    · simp only [if_neg hp, List.map_cons, List.nodup_cons]
      refine ⟨fun hc => ?_, ih h.2⟩
      rw [mem_keys_dinsert] at hc
      rcases hc with hc | hc
      · exact hp hc
      · exact h.1 hc

theorem mem_dinsert {κ α : Type} [DecidableEq κ] (m : List (κ × α)) (k : κ)
    (v : α) (p : κ × α) (h : p ∈ dinsert m k v) : p = (k, v) ∨ p ∈ m := by
  induction m with
  | nil => simpa [dinsert] using h
  | cons q rest ih =>
    simp only [dinsert] at h
    by_cases hq : q.1 = k
    · rw [if_pos hq] at h
      rcases List.mem_cons.mp h with h | h
      · exact Or.inl h
      · exact Or.inr (List.mem_cons_of_mem _ h)
    · rw [if_neg hq] at h
      rcases List.mem_cons.mp h with h | h
      · exact Or.inr (h ▸ List.mem_cons_self _ _)
      · rcases ih h with h | h
        · exact Or.inl h
        · exact Or.inr (List.mem_cons_of_mem _ h)

theorem dlookup_mem {κ α : Type} [DecidableEq κ] (m : List (κ × α)) (k : κ)
    (v : α) (h : dlookup m k = some v) : (k, v) ∈ m := by
  induction m with
  | nil => simp [dlookup] at h
  | cons p rest ih =>
    simp only [dlookup] at h
    by_cases hp : p.1 = k
    · rw [if_pos hp] at h
      have hpv : p = (k, v) := by
        cases p
        simp only [Option.some.injEq] at h
        simp_all
      rw [← hpv]
      exact List.mem_cons_self _ _
    · rw [if_neg hp] at h
      exact List.mem_cons_of_mem _ (ih h)

theorem mem_dlookup {κ α : Type} [DecidableEq κ] (m : List (κ × α))
    (hnd : (m.map Prod.fst).Nodup) (k : κ) (v : α) (h : (k, v) ∈ m) :
    dlookup m k = some v := by
  induction m with
  | nil => simp at h
  | cons p rest ih =>
    simp only [List.map_cons, List.nodup_cons] at hnd
    rcases List.mem_cons.mp h with h | h
    · subst h
      simp [dlookup]
    · have hp : ¬ p.1 = k := by
        intro hh
        exact hnd.1 (hh ▸ (List.mem_map.mpr ⟨(k, v), h, rfl⟩))
      simp only [dlookup, if_neg hp]
      exact ih hnd.2 h

theorem dlookup_dinserts_of_not_mem {κ α : Type} [DecidableEq κ]
    (l : List (κ × α)) (m : List (κ × α)) (k : κ) (h : k ∉ l.map Prod.fst) :
    dlookup (dinserts m l) k = dlookup m k := by
  induction l generalizing m with
  | nil => simp [dinserts]
  | cons p rest ih =>
    simp only [List.map_cons, List.mem_cons, not_or] at h
    show dlookup (dinserts (dinsert m p.1 p.2) rest) k = dlookup m k
    rw [ih _ h.2, dlookup_dinsert, if_neg h.1]

theorem dlookup_dinserts_some {κ α : Type} [DecidableEq κ]
    (l : List (κ × α)) (m : List (κ × α)) (k : κ) (v : α)
    (h : dlookup (dinserts m l) k = some v) : (k, v) ∈ l ∨ dlookup m k = some v := by
  induction l generalizing m with
  | nil => exact Or.inr h
  | cons p rest ih =>
    rcases ih _ h with hm | hm
    · exact Or.inl (List.mem_cons_of_mem _ hm)
    · rw [dlookup_dinsert] at hm
      by_cases hk : k = p.1
      · subst hk
        rw [if_pos rfl] at hm
        injection hm with hm
        subst hm
        exact Or.inl (by rw [Prod.mk.eta]; exact List.mem_cons_self _ _)
      · rw [if_neg hk] at hm
        exact Or.inr hm

theorem dlookup_dinserts_mem {κ α : Type} [DecidableEq κ]
    (l : List (κ × α)) (m : List (κ × α)) (k : κ) (v : α)
    (hnd : (l.map Prod.fst).Nodup) (h : (k, v) ∈ l) :
    dlookup (dinserts m l) k = some v := by
  induction l generalizing m with
  | nil => simp at h
  | cons p rest ih =>
    simp only [List.map_cons, List.nodup_cons] at hnd
    rcases List.mem_cons.mp h with h | h
    · subst h
      show dlookup (dinserts (dinsert m k v) rest) k = some v
      rw [dlookup_dinserts_of_not_mem _ _ _ hnd.1, dlookup_dinsert, if_pos rfl]
    · exact ih _ hnd.2 h

theorem isSome_dlookup_dinserts {κ α : Type} [DecidableEq κ]
    (l : List (κ × α)) (m : List (κ × α)) (k : κ) :
    (dlookup (dinserts m l) k).isSome ↔ k ∈ l.map Prod.fst ∨ (dlookup m k).isSome := by
  induction l generalizing m with
  | nil => simp [dinserts]
  | cons p rest ih =>
    show (dlookup (dinserts (dinsert m p.1 p.2) rest) k).isSome ↔ _
    rw [ih]
    simp only [List.map_cons, List.mem_cons]
    rw [dlookup_dinsert]
    by_cases hk : k = p.1
    · simp [hk]
    · simp only [if_neg hk]
      constructor
      · rintro (hh | hh)
        · exact Or.inl (Or.inr hh)
        · exact Or.inr hh
      · rintro (hh | hh)
        · rcases hh with hh | hh
          · exact absurd hh hk
          · exact Or.inl hh
        · exact Or.inr hh

theorem nfind_eq_none_iff (ns : List Node) (i : String) :
    nfind ns i = none ↔ i ∉ ns.map Node.id := by
  induction ns with
  | nil => simp [nfind]
  | cons n rest ih =>
    simp only [nfind, List.map_cons, List.mem_cons]
    by_cases h : n.id = i
    · simp [h]
    · simp [h, ih, Ne.symm h]

theorem nfind_isSome_iff (ns : List Node) (i : String) :
    (nfind ns i).isSome ↔ i ∈ ns.map Node.id := by
  constructor
  · intro h
    by_contra hc
    rw [← nfind_eq_none_iff] at hc
    rw [hc] at h
    simp at h
  · intro h
    cases hq : nfind ns i with
    | none => exact absurd h ((nfind_eq_none_iff ns i).mp hq)
    | some n => simp

theorem nfind_some_mem (ns : List Node) (i : String) (n : Node)
    (h : nfind ns i = some n) : n ∈ ns ∧ n.id = i := by
  induction ns with
  | nil => simp [nfind] at h
  | cons m rest ih =>
    simp only [nfind] at h
    by_cases hm : m.id = i
    · rw [if_pos hm] at h
      cases h
      exact ⟨List.mem_cons_self _ _, hm⟩
    · rw [if_neg hm] at h
      exact ⟨List.mem_cons_of_mem _ (ih h).1, (ih h).2⟩

theorem map_id_nupdate (ns : List Node) (i : String) (f : Node → Node)
    (hf : ∀ n, (f n).id = n.id) :
    (nupdate ns i f).map Node.id = ns.map Node.id := by
  unfold nupdate
  rw [List.map_map]
  apply List.map_congr_left
  intro n _
  by_cases h : n.id = i <;> simp [h, hf]

theorem degCount_append (es : List Edge) (e : Edge) (k : String) :
    degCount (es ++ [e]) k = degCount es k +
      ((if e.source = k then 1 else 0) + (if e.target = k then 1 else 0)) := by
  unfold degCount
  simp only [List.countP_append]
  by_cases hs : e.source = k <;> by_cases ht : e.target = k <;>
    simp [List.countP, List.countP.go, hs, ht] <;> omega

theorem degCount_map_core (es : List Edge) (f : Edge → Edge) (k : String)
    (hf : ∀ e, (f e).source = e.source ∧ (f e).target = e.target) :
    degCount (es.map f) k = degCount es k := by
  unfold degCount
  rw [List.countP_map, List.countP_map]
  congr 1 <;> apply List.countP_congr <;> intro e _ <;>
    simp [Function.comp, (hf e).1, (hf e).2]

theorem le_foldr_max (l : List ℕ) (x : ℕ) (h : x ∈ l) :
    x ≤ l.foldr Nat.max 0 := by
  induction l with
  | nil => simp at h
  | cons y ys ih =>
    rcases List.mem_cons.mp h with h | h
    · subst h
      exact Nat.le_max_left _ _
    · exact le_trans (ih h) (Nat.le_max_right _ _)

theorem foldr_max_le (l : List ℕ) (b : ℕ) (h : ∀ x ∈ l, x ≤ b) :
    l.foldr Nat.max 0 ≤ b := by
  induction l with
  | nil => simp
  | cons y ys ih =>
    exact Nat.max_le.mpr ⟨h y (List.mem_cons_self _ _),
      ih (fun x hx => h x (List.mem_cons_of_mem _ hx))⟩

theorem le_pyMax_of_mem (l : List ℕ) (d : ℕ) (x : ℕ) (h : x ∈ l) :
    x ≤ pyMax l d := by
  match l, h with
  | y :: ys, h => exact le_foldr_max _ _ h

theorem pyMax_le (l : List ℕ) (d : ℕ) (b : ℕ) (hne : l ≠ [])
    (h : ∀ x ∈ l, x ≤ b) : pyMax l d ≤ b := by
  match l, hne with
  | y :: ys, _ => exact foldr_max_le _ _ h

theorem pyMax_congr (l l' : List ℕ) (d : ℕ) (h : ∀ x, x ∈ l ↔ x ∈ l') :
    pyMax l d = pyMax l' d := by
  match l, l' with
  | [], [] => rfl
  | [], y :: ys => exact absurd ((h y).mpr (List.mem_cons_self _ _)) (by simp)
  | x :: xs, [] => exact absurd ((h x).mp (List.mem_cons_self _ _)) (by simp)
  | x :: xs, y :: ys =>
    apply Nat.le_antisymm
    · exact pyMax_le (x :: xs) d (pyMax (y :: ys) d) (by simp)
        (fun a ha => le_pyMax_of_mem (y :: ys) d a ((h a).mp ha))
    · exact pyMax_le (y :: ys) d (pyMax (x :: xs) d) (by simp)
        (fun a ha => le_pyMax_of_mem (x :: xs) d a ((h a).mpr ha))

theorem ceilSqrtFrom_spec (n : ℕ) (fuel g : ℕ)
    (hex : ∃ d, d < fuel ∧ n ≤ (g + d) * (g + d)) :
    n ≤ ceilSqrtFrom n g fuel * ceilSqrtFrom n g fuel ∧ g ≤ ceilSqrtFrom n g fuel ∧
      ∀ k, g ≤ k → n ≤ k * k → ceilSqrtFrom n g fuel ≤ k := by
  induction fuel generalizing g with
  | zero => omega
  | succ fuel ih =>
    simp only [ceilSqrtFrom]
    by_cases h : n ≤ g * g
    · rw [if_pos h]
      exact ⟨h, Nat.le_refl _, fun k hk _ => hk⟩
    · rw [if_neg h]
      obtain ⟨d, hd, hnd⟩ := hex
      have hd0 : d ≠ 0 := by
        rintro rfl
        simp at hnd
        omega
      have ih' := ih (g + 1) ⟨d - 1, by omega, by
        have : g + 1 + (d - 1) = g + d := by omega
        rw [this]
        exact hnd⟩
      refine ⟨ih'.1, by omega, fun k hk hnk => ?_⟩
      have hgk : g + 1 ≤ k := by
        rcases Nat.eq_or_lt_of_le hk with h2 | h2
        · exfalso
          subst h2
          exact h hnk
        · omega
      exact ih'.2.2 k hgk hnk

theorem ceilSqrt_spec (n : ℕ) :
    n ≤ ceilSqrt n * ceilSqrt n ∧ ∀ k, n ≤ k * k → ceilSqrt n ≤ k := by
  have h := ceilSqrtFrom_spec n (n + 1) 0 ⟨n, by omega, by nlinarith⟩
  exact ⟨h.1, fun k => h.2.2 k (Nat.zero_le _)⟩

theorem ceilSqrt_pos (n : ℕ) (h : 1 ≤ n) : 1 ≤ ceilSqrt n := by
  by_contra hc
  have h0 : ceilSqrt n = 0 := by omega
  have := (ceilSqrt_spec n).1
  rw [h0] at this
  omega

theorem dgetD_dinsert {κ α : Type} [DecidableEq κ] (m : List (κ × α)) (k : κ)
    (v : α) (k' : κ) (d : α) :
    dgetD (dinsert m k v) k' d = if k' = k then v else dgetD m k' d := by
  unfold dgetD
  rw [dlookup_dinsert]
  split <;> rfl

theorem map_id_backfill (ipmap : List (String × String)) (nodes : List Node)
    (ip : String) :
    (backfill_source ipmap nodes ip).map Node.id = nodes.map Node.id := by
  unfold backfill_source
  split
  case h_2 => rfl
  split
  case h_2 => rfl
  split
  · exact map_id_nupdate _ _ _ (fun _ => rfl)
  · rfl

theorem mem_map_id_addIfAbsent (ns : List Node) (n : Node) (k : String) :
    k ∈ (addIfAbsent ns n).map Node.id ↔ k = n.id ∨ k ∈ ns.map Node.id := by
  unfold addIfAbsent
  cases hq : nfind ns n.id with
  | some m =>
    constructor
    · exact fun h => Or.inr h
    · rintro (h | h)
      · subst h
        rw [← nfind_isSome_iff, hq]
        simp
      · exact h
  | none => simp [or_comm]

theorem nodup_addIfAbsent (ns : List Node) (n : Node)
    (h : (ns.map Node.id).Nodup) : ((addIfAbsent ns n).map Node.id).Nodup := by
  unfold addIfAbsent
  cases hq : nfind ns n.id with
  | some m => exact h
  | none =>
    rw [List.map_append]
    simp only [List.map_cons, List.map_nil]
    rw [List.nodup_append]
    refine ⟨h, List.nodup_singleton _, ?_⟩
    intro a ha hb
    simp only [List.mem_singleton] at hb
    subst hb
    exact ((nfind_eq_none_iff ns n.id).mp hq) ha

theorem id_mem_addIfAbsent (ns : List Node) (n : Node) :
    n.id ∈ (addIfAbsent ns n).map Node.id := by
  rw [mem_map_id_addIfAbsent]
  exact Or.inl rfl

theorem mem_map_id_build_nodes (ipmap : List (String × String))
    (nodes : List Node) (computer ip : String) (k : String) :
    k ∈ (build_nodes ipmap nodes computer ip).map Node.id ↔
      k = computer ∨ k = sourceIdOf ipmap ip ∨ k ∈ nodes.map Node.id := by
  unfold build_nodes
  rw [mem_map_id_addIfAbsent, mem_map_id_addIfAbsent, map_id_backfill]
  rfl

theorem nodup_build_nodes (ipmap : List (String × String)) (nodes : List Node)
    (computer ip : String) (h : (nodes.map Node.id).Nodup) :
    ((build_nodes ipmap nodes computer ip).map Node.id).Nodup := by
  unfold build_nodes
  apply nodup_addIfAbsent
  apply nodup_addIfAbsent
  rw [map_id_backfill]
  exact h

theorem degCount_le_append (es : List Edge) (e : Edge) (k : String) :
    degCount es k ≤ degCount (es ++ [e]) k := by
  rw [degCount_append]
  omega

theorem dgetD_incr2 (m : List (String × ℕ)) (a b k : String) :
    dgetD (dinsert (dinsert m a (dgetD m a 0 + 1)) b
        (dgetD (dinsert m a (dgetD m a 0 + 1)) b 0 + 1)) k 0 =
      dgetD m k 0 + ((if a = k then 1 else 0) + (if b = k then 1 else 0)) := by
  rw [dgetD_dinsert]
  by_cases hkb : k = b
  · subst hkb
    rw [if_pos rfl, dgetD_dinsert]
    by_cases hka : k = a
    · subst hka
      simp
    · have h1 : ¬ a = k := fun hh => hka hh.symm
      rw [if_neg hka]
      simp [h1]
  · rw [if_neg hkb, dgetD_dinsert]
    have h2 : ¬ b = k := fun hh => hkb hh.symm
    by_cases hka : k = a
    · subst hka
      simp [h2]
    · have h1 : ¬ a = k := fun hh => hka hh.symm
      rw [if_neg hka]
      simp [h1, h2]

theorem inv_apply (ipmap : List (String × String)) (s : BState) (row : Row)
    (ts : ℚ) (hs : Inv s) : Inv (build_apply ipmap s row ts) := by
  set computer := strip_domain row.computer with hcomp
  set ip := row.ipAddress with hip
  set sid := sourceIdOf ipmap ip with hsid
  set edge : Edge := { source := sid, target := computer, timestamp := ts,
                       user := row.user, color := "" } with hedge
  set key := sortPair sid computer with hkey
  set counts1 := dinsert s.counts sid (dgetD s.counts sid 0 + 1) with hc1
  set counts2 := dinsert counts1 computer (dgetD counts1 computer 0 + 1) with hc2
  set groups1 := dinsert s.groups key (dgetD s.groups key [] ++ [edge]) with hg1
  set nodes1 := build_nodes ipmap s.nodes computer ip with hn1
  have hmem : ∀ k, k ∈ nodes1.map Node.id ↔
      k = computer ∨ k = sid ∨ k ∈ s.nodes.map Node.id :=
    fun k => mem_map_id_build_nodes ipmap s.nodes computer ip k
  have hsrc : edge.source = sid := rfl
  have htgt : edge.target = computer := rfl
  have hred : build_apply ipmap s row ts =
      ⟨nodes1, s.edges ++ [edge], groups1, counts2⟩ := rfl
  rw [hred]
  refine ⟨?_, ?_, ?_, ?_, ?_, ?_, ?_, ?_, ?_⟩
  · exact nodup_build_nodes _ _ _ _ hs.nodupIds
  · intro e he
    rcases List.mem_append.mp he with he | he
    · have := hs.refs e he
      exact ⟨(hmem _).mpr (Or.inr (Or.inr this.1)),
             (hmem _).mpr (Or.inr (Or.inr this.2))⟩
    · simp only [List.mem_singleton] at he
      subst he
      exact ⟨(hmem _).mpr (Or.inr (Or.inl rfl)), (hmem _).mpr (Or.inl rfl)⟩
  · intro k
    show dgetD counts2 k 0 = degCount (s.edges ++ [edge]) k
    rw [degCount_append, hc2, hc1, dgetD_incr2, hsrc, htgt, hs.countsVal k]
  · intro k
    show (dlookup counts2 k).isSome ↔ k ∈ nodes1.map Node.id
    rw [hc2, hc1, dlookup_dinsert, dlookup_dinsert, hmem]
    by_cases h1 : k = computer
    · simp [h1]
    · by_cases h2 : k = sid
      · rw [if_neg h1, if_pos h2]
        simp [h1, h2]
      · rw [if_neg h1, if_neg h2]
        simp [h1, h2, hs.countsKeys k]
  · apply nodup_keys_dinsert
    apply nodup_keys_dinsert
    exact hs.countsNodup
  · intro k hk
    show 1 ≤ degCount (s.edges ++ [edge]) k
    rw [degCount_append, hsrc, htgt]
    rcases (hmem k).mp hk with h | h | h
    · rw [if_pos h.symm]
      split <;> omega
    · rw [if_pos h.symm]
      split <;> omega
    · have := hs.degPos k h
      omega
  · intro p
    show dgetD groups1 p [] = (s.edges ++ [edge]).filter
      (fun e => decide (sortPair e.source e.target = p))
    rw [hg1, dgetD_dinsert, List.filter_append]
    have hpair : sortPair edge.source edge.target = key := rfl
    by_cases hp : p = key
    · subst hp
      rw [if_pos rfl, hs.groupsVal]
      congr 1
      simp [List.filter_cons, hpair]
    · rw [if_neg hp, hs.groupsVal]
      have hkp : ¬ (key = p) := fun hh => hp hh.symm
      have hone : (List.filter (fun e => decide (sortPair e.source e.target = p)) [edge]) = [] := by
        simp only [List.filter_cons, List.filter_nil, hpair]
        simp [hkp]
      rw [hone, List.append_nil]
  · intro pl hpl
    rcases mem_dinsert _ _ _ _ hpl with h | h
    · subst h
      simp
    · exact hs.groupsNE pl h
  · exact nodup_keys_dinsert _ _ _ hs.groupsNodup

theorem inv_init : Inv ⟨[], [], [], []⟩ := by
  refine ⟨?_, ?_, ?_, ?_, ?_, ?_, ?_, ?_, ?_⟩
  · simp
  · intro e he
    simp at he
  · intro k
    rfl
  · intro k
    simp [dlookup]
  · simp
  · intro k hk
    simp at hk
  · intro p
    rfl
  · intro pl hpl
    simp at hpl
  · simp

theorem inv_step_ok (pt : String → Option ℚ) (ipmap : List (String × String))
    (s : BState) (r : Row) (s' : BState) (hs : Inv s)
    (h : build_step pt ipmap s r = Except.ok s') : Inv s' := by
  unfold build_step at h
  by_cases hc : r.eventTime = "" ∨ strip_domain r.computer = "" ∨ r.ipAddress = ""
  · rw [if_pos hc] at h
    cases h
    exact hs
  · rw [if_neg hc] at h
    cases hpt : pt r.eventTime with
    | none => rw [hpt] at h; cases h
    | some ts =>
      rw [hpt] at h
      cases h
      exact inv_apply ipmap s r ts hs

theorem inv_foldlM (pt : String → Option ℚ) (ipmap : List (String × String))
    (rows : List Row) (s s' : BState) (hs : Inv s)
    (h : rows.foldlM (build_step pt ipmap) s = Except.ok s') : Inv s' := by
  induction rows generalizing s with
  | nil =>
    simp only [List.foldlM_nil] at h
    cases h
    exact hs
  | cons r rest ih =>
    rw [List.foldlM_cons] at h
    cases hstep : build_step pt ipmap s r with
    | error e =>
      rw [hstep] at h
      exact Except.noConfusion h
    | ok s1 =>
      rw [hstep] at h
      exact ih s1 (inv_step_ok pt ipmap s r s1 hs hstep) h

/-- The per-node styling function (body of the loop at server.py:184-189). -/
theorem except_bind_ok {ε α β : Type} (a : α) (f : α → Except ε β) :
    (Except.ok (ε := ε) a >>= f) = f a := rfl

theorem styleNodes_eq (ipmap : List (String × String))
    (counts : List (String × ℕ)) (maxD : ℕ) (ns : List Node)
    (h : ∀ i ∈ ns.map Node.id, (dlookup counts i).isSome) :
    styleNodes ipmap counts maxD ns =
      Except.ok (ns.map (styleFn ipmap counts maxD)) := by
  induction ns with
  | nil => rfl
  | cons n rest ih =>
    have hn := h n.id (by simp)
    cases hq : dlookup counts n.id with
    | none => rw [hq] at hn; simp at hn
    | some c =>
      show (match dlookup counts n.id with
        | none => Except.error "KeyError"
        | some c => do
          let rest' ← styleNodes ipmap counts maxD rest
          Except.ok ({ n with
            color := some (if (match n.ip with
              | some ip => (dlookup ipmap ip).isSome
              | none => false) then "blue" else "red"),
            size := calculate_node_size (c : ℚ) (maxD : ℚ) } :: rest')) = _
      rw [hq, ih (fun i hi => h i (List.mem_cons_of_mem _ hi))]
      show Except.ok _ = Except.ok _
      congr 1
      simp only [List.map_cons]
      congr 1
      unfold styleFn
      unfold dgetD
      rw [hq]
      rfl

theorem applyPositions_map_id (ps : List (String × Pos)) (ns : List Node) :
    (applyPositions ps ns).map Node.id = ns.map Node.id := by
  unfold applyPositions
  rw [List.map_map]
  apply List.map_congr_left
  intro n _
  show (match dlookup ps n.id with
    | some p => { n with pos := some p }
    | none => n).id = n.id
  cases hq : dlookup ps n.id <;> rfl

theorem mem_applyPositions (ps : List (String × Pos)) (ns : List Node)
    (n' : Node) (h : n' ∈ applyPositions ps ns) :
    ∃ n ∈ ns, n'.id = n.id ∧ n'.size = n.size ∧ n'.label = n.label ∧
      n'.ip = n.ip ∧ n'.color = n.color := by
  unfold applyPositions at h
  rcases List.mem_map.mp h with ⟨n, hn, hmap⟩
  refine ⟨n, hn, ?_⟩
  rw [← hmap]
  show ((match dlookup ps n.id with
    | some p => { n with pos := some p }
    | none => n) : Node).id = n.id ∧ _
  cases hq : dlookup ps n.id <;> exact ⟨rfl, rfl, rfl, rfl, rfl⟩

theorem colorEdges_map (ecf : ℕ → ℕ → String)
    (groups : List ((String × String) × List Edge)) (maxE : ℕ)
    (es : List Edge) :
    colorEdges ecf groups maxE es = es.map (fun e =>
      { e with color := ecf (dgetD groups (sortPair e.source e.target) []).length maxE }) := rfl

theorem groupSize_map_core (es : List Edge) (f : Edge → Edge) (a b : String)
    (hf : ∀ e, (f e).source = e.source ∧ (f e).target = e.target) :
    groupSize (es.map f) a b = groupSize es a b := by
  unfold groupSize
  rw [← List.countP_eq_length_filter, ← List.countP_eq_length_filter,
    List.countP_map]
  apply List.countP_congr
  intro e _
  simp [Function.comp, (hf e).1, (hf e).2]

theorem process_csv_ok_destruct (pt : String → Option ℚ)
    (ecf : ℕ → ℕ → String) (cA sA : ℕ → ℕ → ℚ) (rnd : ℚ → ℚ → ℕ → ℚ)
    (rows : List Row) (layout : String) (g : Graph)
    (h : process_csv pt ecf cA sA rnd rows layout = Except.ok g) :
    ∃ s ps, rows.foldlM (build_step pt (build_ipmap rows)) ⟨[], [], [], []⟩ =
        Except.ok s ∧ Inv s ∧ s.groups.isEmpty = false ∧
      g.nodes = applyPositions ps (s.nodes.map (styleFn (build_ipmap rows)
        s.counts (pyMax (s.counts.map Prod.snd) 1))) ∧
      g.edges = colorEdges ecf s.groups
        (pyMax (s.groups.map (fun gg => gg.2.length)) 0) s.edges ∧
      layoutPositions cA sA rnd layout
        (s.nodes.map (styleFn (build_ipmap rows) s.counts
          (pyMax (s.counts.map Prod.snd) 1)))
        (colorEdges ecf s.groups
          (pyMax (s.groups.map (fun gg => gg.2.length)) 0) s.edges) =
        Except.ok ps := by
  unfold process_csv at h
  cases hfold : rows.foldlM (build_step pt (build_ipmap rows))
      (⟨[], [], [], []⟩ : BState) with
  | error e =>
    rw [hfold] at h
    exact Except.noConfusion h
  | ok s =>
    rw [hfold, except_bind_ok] at h
    have hinv : Inv s := inv_foldlM _ _ _ _ _ inv_init hfold
    have hkeys : ∀ i ∈ s.nodes.map Node.id, (dlookup s.counts i).isSome :=
      fun i hi => (hinv.countsKeys i).mpr hi
    rw [styleNodes_eq _ _ _ _ hkeys, except_bind_ok] at h
    cases hge : s.groups.isEmpty with
    | true =>
      rw [if_pos hge] at h
      exact Except.noConfusion h
    | false =>
      have hne : ¬ (s.groups.isEmpty = true) := by
        rw [hge]
        exact Bool.false_ne_true
      rw [if_neg hne] at h
      cases hps : layoutPositions cA sA rnd layout
          (s.nodes.map (styleFn (build_ipmap rows) s.counts
            (pyMax (s.counts.map Prod.snd) 1)))
          (colorEdges ecf s.groups
            (pyMax (s.groups.map (fun gg => gg.2.length)) 0) s.edges) with
      | error e =>
        rw [hps] at h
        exact Except.noConfusion h
      | ok ps =>
        rw [hps, except_bind_ok] at h
        injection h with h
        exact ⟨s, ps, rfl, hinv, hge, by rw [← h], by rw [← h], hps⟩

theorem styleFn_id (ipmap : List (String × String)) (counts : List (String × ℕ))
    (maxD : ℕ) (n : Node) : (styleFn ipmap counts maxD n).id = n.id := rfl

theorem process_csv_ok_spec (pt : String → Option ℚ) (ecf : ℕ → ℕ → String)
    (cA sA : ℕ → ℕ → ℚ) (rnd : ℚ → ℚ → ℕ → ℚ) (rows : List Row)
    (layout : String) (g : Graph)
    (h : process_csv pt ecf cA sA rnd rows layout = Except.ok g) :
    GraphWF g ∧
    (∀ n ∈ g.nodes, n.size =
      calculate_node_size ((degCount g.edges n.id : ℕ) : ℚ)
        ((maxNodeDeg g : ℕ) : ℚ)) ∧
    (∀ e ∈ g.edges, e.color =
      ecf (groupSize g.edges e.source e.target) (maxGroupSize g.edges)) := by
  obtain ⟨s, ps, hfold, hinv, hge, hnodes, hedges, hps⟩ :=
    process_csv_ok_destruct pt ecf cA sA rnd rows layout g h
  set ipm := build_ipmap rows with hipm
  set maxD := pyMax (s.counts.map Prod.snd) 1 with hmaxD
  set maxE := pyMax (s.groups.map (fun gg => gg.2.length)) 0 with hmaxE
  -- node id lists agree
  have hstyledids : (s.nodes.map (styleFn ipm s.counts maxD)).map Node.id =
      s.nodes.map Node.id := by
    rw [List.map_map]
    apply List.map_congr_left
    intro n _
    exact styleFn_id _ _ _ n
  have hids : g.nodes.map Node.id = s.nodes.map Node.id := by
    rw [hnodes, applyPositions_map_id, hstyledids]
  -- degrees agree
  have hdeg : ∀ k, degCount g.edges k = degCount s.edges k := by
    intro k
    rw [hedges, colorEdges_map]
    exact degCount_map_core _ _ _ (fun e => ⟨rfl, rfl⟩)
  -- group sizes agree
  have hgsz : ∀ a b, groupSize g.edges a b = groupSize s.edges a b := by
    intro a b
    rw [hedges, colorEdges_map]
    exact groupSize_map_core _ _ _ _ (fun e => ⟨rfl, rfl⟩)
  -- membership of edges
  have hedgemem : ∀ e' ∈ g.edges, ∃ e0 ∈ s.edges, e' =
      { e0 with color := ecf (dgetD s.groups (sortPair e0.source e0.target) []).length maxE } := by
    intro e' he'
    rw [hedges, colorEdges_map] at he'
    rcases List.mem_map.mp he' with ⟨e0, he0, hmap⟩
    exact ⟨e0, he0, hmap.symm⟩
  have hedgemem' : ∀ e0 ∈ s.edges,
      ({ e0 with color := ecf (dgetD s.groups (sortPair e0.source e0.target) []).length maxE } : Edge) ∈ g.edges := by
    intro e0 he0
    rw [hedges, colorEdges_map]
    exact List.mem_map.mpr ⟨e0, he0, rfl⟩
  -- max degree transfer
  have hmaxdeg : maxD = maxNodeDeg g := by
    unfold maxNodeDeg
    apply pyMax_congr
    intro x
    constructor
    · intro hx
      rcases List.mem_map.mp hx with ⟨p, hp, hpx⟩
      have hlk : dlookup s.counts p.1 = some p.2 := by
        apply mem_dlookup _ hinv.countsNodup
        rw [Prod.mk.eta]
        exact hp
      have hkid : p.1 ∈ s.nodes.map Node.id := by
        rw [← hinv.countsKeys p.1, hlk]
        rfl
      have hval : p.2 = degCount s.edges p.1 := by
        rw [← hinv.countsVal p.1]
        unfold dgetD
        rw [hlk]
        rfl
      rw [← hids] at hkid
      rcases List.mem_map.mp hkid with ⟨n', hn', hnid⟩
      refine List.mem_map.mpr ⟨n', hn', ?_⟩
      rw [hdeg, hnid, ← hval, hpx]
    · intro hx
      rcases List.mem_map.mp hx with ⟨n', hn', hnx⟩
      have hkid : n'.id ∈ s.nodes.map Node.id := by
        rw [← hids]
        exact List.mem_map.mpr ⟨n', hn', rfl⟩
      have hsm := (hinv.countsKeys n'.id).mpr hkid
      cases hlk : dlookup s.counts n'.id with
      | none => rw [hlk] at hsm; simp at hsm
      | some c =>
        have hval : c = degCount s.edges n'.id := by
          rw [← hinv.countsVal n'.id]
          unfold dgetD
          rw [hlk]
          rfl
        have hmem := dlookup_mem _ _ _ hlk
        refine List.mem_map.mpr ⟨(n'.id, c), hmem, ?_⟩
        rw [← hnx, hval, hdeg]
  -- max group size transfer
  have hmaxgrp : maxE = maxGroupSize g.edges := by
    unfold maxGroupSize
    apply pyMax_congr
    intro x
    constructor
    · intro hx
      rcases List.mem_map.mp hx with ⟨pl, hpl, hplx⟩
      have hlk : dlookup s.groups pl.1 = some pl.2 := by
        apply mem_dlookup _ hinv.groupsNodup
        rw [Prod.mk.eta]
        exact hpl
      have hfl : pl.2 = s.edges.filter
          (fun e => decide (sortPair e.source e.target = pl.1)) := by
        rw [← hinv.groupsVal pl.1]
        unfold dgetD
        rw [hlk]
        rfl
      have hne2 : pl.2 ≠ [] := hinv.groupsNE pl hpl
      rcases List.exists_mem_of_ne_nil pl.2 hne2 with ⟨e0, he0⟩
      have he0f := he0
      rw [hfl] at he0f
      have he0s := List.mem_filter.mp he0f
      have hpair : sortPair e0.source e0.target = pl.1 :=
        of_decide_eq_true he0s.2
      have hgsize : groupSize s.edges e0.source e0.target = pl.2.length := by
        unfold groupSize
        rw [hfl, hpair]
      refine List.mem_map.mpr ⟨{ e0 with color := ecf (dgetD s.groups (sortPair e0.source e0.target) []).length maxE }, hedgemem' e0 he0s.1, ?_⟩
      show groupSize g.edges e0.source e0.target = x
      rw [hgsz, hgsize, hplx]
    · intro hx
      rcases List.mem_map.mp hx with ⟨e', he', hex⟩
      rcases hedgemem e' he' with ⟨e0, he0, hre⟩
      have hsrc : e'.source = e0.source := by rw [hre]
      have htgt : e'.target = e0.target := by rw [hre]
      have hx0 : x = groupSize s.edges e0.source e0.target := by
        rw [← hex, hsrc, htgt, hgsz]
      have hmemf : e0 ∈ s.edges.filter
          (fun e => decide (sortPair e.source e.target =
            sortPair e0.source e0.target)) :=
        List.mem_filter.mpr ⟨he0, by simp⟩
      have hdg := hinv.groupsVal (sortPair e0.source e0.target)
      cases hlk : dlookup s.groups (sortPair e0.source e0.target) with
      | none =>
        unfold dgetD at hdg
        rw [hlk] at hdg
        rw [← hdg] at hmemf
        simp at hmemf
      | some l =>
        unfold dgetD at hdg
        rw [hlk] at hdg
        refine List.mem_map.mpr ⟨(sortPair e0.source e0.target, l),
          dlookup_mem _ _ _ hlk, ?_⟩
        show l.length = x
        rw [hx0]
        unfold groupSize
        rw [← hdg]
        rfl
  refine ⟨⟨?_, ?_, ?_⟩, ?_, ?_⟩
  · rw [hids]
    exact hinv.nodupIds
  · intro e' he'
    rcases hedgemem e' he' with ⟨e0, he0, hre⟩
    have := hinv.refs e0 he0
    constructor
    · rw [hre, hids]
      exact this.1
    · rw [hre, hids]
      exact this.2
  · intro n hn
    rw [hdeg]
    apply hinv.degPos
    rw [← hids]
    exact List.mem_map.mpr ⟨n, hn, rfl⟩
  · intro n' hn'
    rw [hnodes] at hn'
    rcases mem_applyPositions _ _ _ hn' with ⟨m, hm, hid, hsize, _⟩
    rcases List.mem_map.mp hm with ⟨m0, hm0, hmap⟩
    have hmsize : m.size = calculate_node_size ((dgetD s.counts m0.id 0 : ℕ) : ℚ)
        ((maxD : ℕ) : ℚ) := by
      rw [← hmap]
      rfl
    have hmid : m.id = m0.id := by
      rw [← hmap]
      rfl
    rw [hsize, hmsize, hinv.countsVal m0.id, ← hmid, ← hid, ← hdeg, hmaxdeg]
  · intro e' he'
    rcases hedgemem e' he' with ⟨e0, he0, hre⟩
    have hcol : e'.color =
        ecf (dgetD s.groups (sortPair e0.source e0.target) []).length maxE := by
      rw [hre]
    have hsrc : e'.source = e0.source := by rw [hre]
    have htgt : e'.target = e0.target := by rw [hre]
    rw [hcol, hsrc, htgt, hinv.groupsVal, hmaxgrp]
    congr 1
    rw [hgsz]
    rfl

theorem update_layout_ok (cA sA : ℕ → ℕ → ℚ) (rnd : ℚ → ℚ → ℕ → ℚ)
    (g : Graph) (layout : String) (g' : Graph)
    (h : update_layout cA sA rnd g layout = Except.ok g') :
    g'.nodes.map Node.id = g.nodes.map Node.id ∧ g'.edges = g.edges := by
  unfold update_layout at h
  cases hps : layoutPositions cA sA rnd layout g.nodes g.edges with
  | error e =>
    rw [hps] at h
    exact Except.noConfusion h
  | ok ps =>
    rw [hps, except_bind_ok] at h
    injection h with h
    rw [← h]
    exact ⟨applyPositions_map_id _ _, rfl⟩

theorem wf_layoutStep (g g' : Graph) (hwf : GraphWF g) (hstep : LayoutStep g g') :
    GraphWF g' := by
  rcases hstep with ⟨cA, sA, rnd, layout, hok⟩
  obtain ⟨hids, hedges⟩ := update_layout_ok cA sA rnd g layout g' hok
  obtain ⟨hnd, hrefs, hdeg⟩ := hwf
  refine ⟨?_, ?_, ?_⟩
  · rw [hids]
    exact hnd
  · intro e he
    rw [hedges] at he
    have := hrefs e he
    rw [hids]
    exact this
  · intro n hn
    have hmm : n.id ∈ g'.nodes.map Node.id := List.mem_map.mpr ⟨n, hn, rfl⟩
    rw [hids] at hmm
    rcases List.mem_map.mp hmm with ⟨m, hm, hmid⟩
    rw [hedges, ← hmid]
    exact hdeg m hm

theorem wf_reach (g g' : Graph) (hwf : GraphWF g) (hreach : LayoutReach g g') :
    GraphWF g' := by
  induction hreach with
  | refl => exact hwf
  | tail _ hstep ih => exact wf_layoutStep _ _ ih hstep

theorem mem_endpoints (es : List Edge) (x : String) :
    x ∈ es.foldr (fun e acc => e.source :: e.target :: acc) [] ↔
      ∃ e ∈ es, e.source = x ∨ e.target = x := by
  induction es with
  | nil => simp
  | cons e rest ih =>
    simp only [List.foldr, List.mem_cons, ih]
    constructor
    · rintro (h | h | ⟨e', he', h⟩)
      · exact ⟨e, Or.inl rfl, Or.inl h.symm⟩
      · exact ⟨e, Or.inl rfl, Or.inr h.symm⟩
      · exact ⟨e', Or.inr he', h⟩
    · rintro ⟨e', he' | he', h⟩
      · subst he'
        rcases h with h | h
        · exact Or.inl h.symm
        · exact Or.inr (Or.inl h.symm)
      · exact Or.inr (Or.inr ⟨e', he', h⟩)

theorem build_step_error_of_bad (pt : String → Option ℚ)
    (ipmap : List (String × String)) (s : BState) (r : Row)
    (hbad : processedBadRow pt r) :
    build_step pt ipmap s r =
      Except.error ("Unknown string format: " ++ r.eventTime) := by
  obtain ⟨h1, h2, h3, h4⟩ := hbad
  unfold build_step
  rw [if_neg (by simp [h1, h2, h3]), h4]

theorem build_step_ok_of_not_bad (pt : String → Option ℚ)
    (ipmap : List (String × String)) (s : BState) (r : Row)
    (hnb : ¬ processedBadRow pt r) :
    ∃ s', build_step pt ipmap s r = Except.ok s' := by
  unfold build_step
  by_cases hc : r.eventTime = "" ∨ strip_domain r.computer = "" ∨ r.ipAddress = ""
  · exact ⟨s, by rw [if_pos hc]⟩
  · rw [if_neg hc]
    push_neg at hc
    cases hpt : pt r.eventTime with
    | none => exact absurd ⟨hc.1, hc.2.1, hc.2.2, hpt⟩ hnb
    | some ts => exact ⟨build_apply ipmap s r ts, rfl⟩

theorem foldlM_error_of_bad (pt : String → Option ℚ)
    (ipmap : List (String × String)) (rows : List Row)
    (hbad : ∃ r ∈ rows, processedBadRow pt r) (s : BState) :
    ∃ msg, rows.foldlM (build_step pt ipmap) s = Except.error msg := by
  induction rows generalizing s with
  | nil => simp at hbad
  | cons r rest ih =>
    rw [List.foldlM_cons]
    by_cases hr : processedBadRow pt r
    · rw [build_step_error_of_bad pt ipmap s r hr]
      exact ⟨_, rfl⟩
    · obtain ⟨s', hs'⟩ := build_step_ok_of_not_bad pt ipmap s r hr
      rw [hs', except_bind_ok]
      apply ih
      rcases hbad with ⟨r', hr', hbad'⟩
      rcases List.mem_cons.mp hr' with h | h
      · subst h
        exact absurd hbad' hr
      · exact ⟨r', h, hbad'⟩

theorem process_csv_error_of_bad (pt : String → Option ℚ)
    (ecf : ℕ → ℕ → String) (cA sA : ℕ → ℕ → ℚ) (rnd : ℚ → ℚ → ℕ → ℚ)
    (rows : List Row) (layout : String)
    (hbad : ∃ r ∈ rows, processedBadRow pt r) :
    ∃ msg, process_csv pt ecf cA sA rnd rows layout = Except.error msg := by
  obtain ⟨msg, hmsg⟩ := foldlM_error_of_bad pt (build_ipmap rows) rows hbad
    ⟨[], [], [], []⟩
  refine ⟨msg, ?_⟩
  unfold process_csv
  rw [hmsg]
  rfl

theorem nfind_append (l1 l2 : List Node) (i : String) (h : nfind l1 i = none) :
    nfind (l1 ++ l2) i = nfind l2 i := by
  induction l1 with
  | nil => rfl
  | cons n rest ih =>
    simp only [nfind] at h ⊢
    by_cases hn : n.id = i
    · rw [if_pos hn] at h
      exact Option.noConfusion h
    · rw [if_neg hn] at h ⊢
      exact ih h

theorem nfind_addIfAbsent_self (ns : List Node) (n : Node)
    (h : n.id ∉ ns.map Node.id) : nfind (addIfAbsent ns n) n.id = some n := by
  unfold addIfAbsent
  have hq : nfind ns n.id = none := (nfind_eq_none_iff ns n.id).mpr h
  rw [hq, nfind_append _ _ _ hq]
  simp [nfind]

theorem build_step_creates_computer (pt : String → Option ℚ)
    (ipmap : List (String × String)) (s : BState) (row : Row) (ts : ℚ)
    (h1 : row.eventTime ≠ "") (h2 : strip_domain row.computer ≠ "")
    (h3 : row.ipAddress ≠ "") (hpt : pt row.eventTime = some ts)
    (habs : strip_domain row.computer ∉ s.nodes.map Node.id)
    (hne : strip_domain row.computer ≠ sourceIdOf ipmap row.ipAddress) :
    ∃ s' n, build_step pt ipmap s row = Except.ok s' ∧
      nfind s'.nodes (strip_domain row.computer) = some n ∧
      n.label = (if (dlookup ipmap row.ipAddress).isSome
        then strip_domain row.computer ++ " (" ++ row.ipAddress ++ ")"
        else strip_domain row.computer) ∧
      n.ip = none := by
  refine ⟨build_apply ipmap s row ts,
    computerNodeOf ipmap (strip_domain row.computer) row.ipAddress, ?_, ?_, rfl, rfl⟩
  · unfold build_step
    rw [if_neg (by simp [h1, h2, h3]), hpt]
  · show nfind (build_nodes ipmap s.nodes (strip_domain row.computer)
      row.ipAddress) (strip_domain row.computer) = _
    unfold build_nodes
    have hid : (computerNodeOf ipmap (strip_domain row.computer)
        row.ipAddress).id = strip_domain row.computer := rfl
    rw [← hid]
    apply nfind_addIfAbsent_self
    rw [hid, mem_map_id_addIfAbsent, map_id_backfill]
    push_neg
    constructor
    · show strip_domain row.computer ≠ (sourceNodeOf ipmap row.ipAddress).id
      exact hne
    · exact habs

theorem dinsert_ne_nil {κ α : Type} [DecidableEq κ] (m : List (κ × α)) (k : κ)
    (v : α) : dinsert m k v ≠ [] := by
  cases m with
  | nil => simp [dinsert]
  | cons p rest =>
    unfold dinsert
    split <;> simp

theorem smartGroupStep_ungroupable (gs : List (Int × List Node)) (n : Node)
    (h : ipClass n = IpClass.ungroupable) : smartGroupStep gs n = Except.ok gs := by
  unfold smartGroupStep
  rw [h]

theorem smartGroupStep_grouped (gs : List (Int × List Node)) (n : Node)
    (t : Int) (h : ipClass n = IpClass.grouped t) :
    smartGroupStep gs n = Except.ok (dinsert gs t (dgetD gs t [] ++ [n])) := by
  unfold smartGroupStep
  rw [h]

theorem smartGroupStep_malformed (gs : List (Int × List Node)) (n : Node)
    (h : ipClass n = IpClass.malformed) : smartGroupStep gs n = Except.error () := by
  unfold smartGroupStep
  rw [h]

theorem smartGroups_fold_error_iff (ns : List Node)
    (gs : List (Int × List Node)) :
    ns.foldlM smartGroupStep gs = Except.error () ↔
      ∃ n ∈ ns, ipClass n = IpClass.malformed := by
  induction ns generalizing gs with
  | nil =>
    simp only [List.foldlM_nil]
    constructor
    · intro h
      exact Except.noConfusion h
    · rintro ⟨n, hn, _⟩
      simp at hn
  | cons n rest ih =>
    rw [List.foldlM_cons]
    cases hc : ipClass n with
    | ungroupable =>
      rw [smartGroupStep_ungroupable _ _ hc, except_bind_ok, ih]
      constructor
      · rintro ⟨m, hm, hmc⟩
        exact ⟨m, List.mem_cons_of_mem _ hm, hmc⟩
      · rintro ⟨m, hm, hmc⟩
        rcases List.mem_cons.mp hm with hm' | hm'
        · subst hm'
          rw [hc] at hmc
          exact IpClass.noConfusion hmc
        · exact ⟨m, hm', hmc⟩
    | grouped t =>
      rw [smartGroupStep_grouped _ _ _ hc, except_bind_ok, ih]
      constructor
      · rintro ⟨m, hm, hmc⟩
        exact ⟨m, List.mem_cons_of_mem _ hm, hmc⟩
      · rintro ⟨m, hm, hmc⟩
        rcases List.mem_cons.mp hm with hm' | hm'
        · subst hm'
          rw [hc] at hmc
          exact IpClass.noConfusion hmc
        · exact ⟨m, hm', hmc⟩
    | malformed =>
      rw [smartGroupStep_malformed _ _ hc]
      constructor
      · intro _
        exact ⟨n, List.mem_cons_self _ _, hc⟩
      · intro _
        rfl

theorem fold_preserves_group_mem (ns : List Node)
    (gs gs' : List (Int × List Node)) (t : Int) (n : Node)
    (hp : ∃ ms, dlookup gs t = some ms ∧ n ∈ ms)
    (h : ns.foldlM smartGroupStep gs = Except.ok gs') :
    ∃ ms, dlookup gs' t = some ms ∧ n ∈ ms := by
  induction ns generalizing gs with
  | nil =>
    simp only [List.foldlM_nil] at h
    injection h with h
    rw [← h]
    exact hp
  | cons m rest ih =>
    rw [List.foldlM_cons] at h
    cases hc : ipClass m with
    | ungroupable =>
      rw [smartGroupStep_ungroupable _ _ hc, except_bind_ok] at h
      exact ih gs hp h
    | malformed =>
      rw [smartGroupStep_malformed _ _ hc] at h
      exact Except.noConfusion h
    | grouped t' =>
      rw [smartGroupStep_grouped _ _ _ hc, except_bind_ok] at h
      apply ih _ _ h
      rcases hp with ⟨ms, hms, hnm⟩
      by_cases ht : t = t'
      · subst ht
        refine ⟨dgetD gs t [] ++ [m], ?_, ?_⟩
        · rw [dlookup_dinsert, if_pos rfl]
        · unfold dgetD
          rw [hms]
          exact List.mem_append.mpr (Or.inl hnm)
      · refine ⟨ms, ?_, hnm⟩
        rw [dlookup_dinsert, if_neg ht]
        exact hms

theorem smartGroups_grouped_mem (ns : List Node)
    (gs gs' : List (Int × List Node)) (t : Int) (n : Node) (hn : n ∈ ns)
    (ht : ipClass n = IpClass.grouped t)
    (h : ns.foldlM smartGroupStep gs = Except.ok gs') :
    ∃ ms, dlookup gs' t = some ms ∧ n ∈ ms := by
  induction ns generalizing gs with
  | nil => simp at hn
  | cons m rest ih =>
    rw [List.foldlM_cons] at h
    rcases List.mem_cons.mp hn with hn' | hn'
    · subst hn'
      rw [smartGroupStep_grouped _ _ _ ht, except_bind_ok] at h
      apply fold_preserves_group_mem rest _ _ t n _ h
      refine ⟨dgetD gs t [] ++ [n], ?_, ?_⟩
      · rw [dlookup_dinsert, if_pos rfl]
      · exact List.mem_append.mpr (Or.inr (List.mem_cons_self _ _))
    · cases hc : ipClass m with
      | ungroupable =>
        rw [smartGroupStep_ungroupable _ _ hc, except_bind_ok] at h
        exact ih gs hn' h
      | malformed =>
        rw [smartGroupStep_malformed _ _ hc] at h
        exact Except.noConfusion h
      | grouped t' =>
        rw [smartGroupStep_grouped _ _ _ hc, except_bind_ok] at h
        exact ih _ hn' h

theorem fold_ne_nil_preserve (ns : List Node)
    (gs gs' : List (Int × List Node)) (hne : gs ≠ [])
    (h : ns.foldlM smartGroupStep gs = Except.ok gs') : gs' ≠ [] := by
  induction ns generalizing gs with
  | nil =>
    simp only [List.foldlM_nil] at h
    injection h with h
    rw [← h]
    exact hne
  | cons m rest ih =>
    rw [List.foldlM_cons] at h
    cases hc : ipClass m with
    | ungroupable =>
      rw [smartGroupStep_ungroupable _ _ hc, except_bind_ok] at h
      exact ih gs hne h
    | malformed =>
      rw [smartGroupStep_malformed _ _ hc] at h
      exact Except.noConfusion h
    | grouped t' =>
      rw [smartGroupStep_grouped _ _ _ hc, except_bind_ok] at h
      exact ih _ (dinsert_ne_nil _ _ _) h

theorem smartGroups_nil_iff (ns : List Node) (gs' : List (Int × List Node))
    (h : ns.foldlM smartGroupStep [] = Except.ok gs') :
    gs' = [] ↔ ∀ n ∈ ns, ∀ t, ipClass n ≠ IpClass.grouped t := by
  induction ns generalizing gs' with
  | nil =>
    simp only [List.foldlM_nil] at h
    injection h with h
    simp [← h]
  | cons m rest ih =>
    rw [List.foldlM_cons] at h
    cases hc : ipClass m with
    | ungroupable =>
      rw [smartGroupStep_ungroupable _ _ hc, except_bind_ok] at h
      rw [ih _ h]
      constructor
      · intro hall n hn t
        rcases List.mem_cons.mp hn with hn' | hn'
        · subst hn'
          rw [hc]
          exact fun hh => IpClass.noConfusion hh
        · exact hall n hn' t
      · intro hall n hn t
        exact hall n (List.mem_cons_of_mem _ hn) t
    | malformed =>
      rw [smartGroupStep_malformed _ _ hc] at h
      exact Except.noConfusion h
    | grouped t' =>
      rw [smartGroupStep_grouped _ _ _ hc, except_bind_ok] at h
      constructor
      · intro hnil
        exact absurd hnil (fold_ne_nil_preserve rest _ _ (dinsert_ne_nil _ _ _) h)
      · intro hall
        exact absurd hc (hall m (List.mem_cons_self _ _) t')

theorem degCount_cons (e : Edge) (es : List Edge) (k : String) :
    degCount (e :: es) k = ((if e.source = k then 1 else 0) +
      (if e.target = k then 1 else 0)) + degCount es k := by
  unfold degCount
  rw [List.countP_cons, List.countP_cons]
  by_cases hs : e.source = k <;> by_cases ht : e.target = k <;>
    simp [hs, ht] <;> omega

theorem smartGroups_entries_origin (ns : List Node)
    (Q : Node → Int → Prop) (gs gs' : List (Int × List Node))
    (horig : ∀ pl ∈ gs, ∀ m ∈ pl.2, Q m pl.1)
    (hns : ∀ n ∈ ns, ∀ t, ipClass n = IpClass.grouped t → Q n t)
    (h : ns.foldlM smartGroupStep gs = Except.ok gs') :
    ∀ pl ∈ gs', ∀ m ∈ pl.2, Q m pl.1 := by
  induction ns generalizing gs with
  | nil =>
    simp only [List.foldlM_nil] at h
    injection h with h
    rw [← h]
    exact horig
  | cons n rest ih =>
    rw [List.foldlM_cons] at h
    cases hc : ipClass n with
    | ungroupable =>
      rw [smartGroupStep_ungroupable _ _ hc, except_bind_ok] at h
      exact ih gs horig
        (fun m hm t htc => hns m (List.mem_cons_of_mem _ hm) t htc) h
    | malformed =>
      rw [smartGroupStep_malformed _ _ hc] at h
      exact Except.noConfusion h
    | grouped t' =>
      rw [smartGroupStep_grouped _ _ _ hc, except_bind_ok] at h
      apply ih _ ?_ (fun m hm t htc => hns m (List.mem_cons_of_mem _ hm) t htc) h
      intro pl hpl m hm
      rcases mem_dinsert _ _ _ _ hpl with hpl' | hpl'
      · subst hpl'
        rcases List.mem_append.mp hm with hm' | hm'
        · cases hq : dlookup gs t' with
          | none =>
            unfold dgetD at hm'
            rw [hq] at hm'
            simp at hm'
          | some l =>
            unfold dgetD at hm'
            rw [hq] at hm'
            exact horig (t', l) (dlookup_mem _ _ _ hq) m hm'
        · simp only [List.mem_singleton] at hm'
          subst hm'
          exact hns m (List.mem_cons_self _ _) t' hc
      · exact horig pl hpl' m hm

theorem smartGroups_entries_ne_nil (ns : List Node)
    (gs gs' : List (Int × List Node)) (hne : ∀ pl ∈ gs, pl.2 ≠ [])
    (h : ns.foldlM smartGroupStep gs = Except.ok gs') :
    ∀ pl ∈ gs', pl.2 ≠ [] := by
  induction ns generalizing gs with
  | nil =>
    simp only [List.foldlM_nil] at h
    injection h with h
    rw [← h]
    exact hne
  | cons n rest ih =>
    rw [List.foldlM_cons] at h
    cases hc : ipClass n with
    | ungroupable =>
      rw [smartGroupStep_ungroupable _ _ hc, except_bind_ok] at h
      exact ih gs hne h
    | malformed =>
      rw [smartGroupStep_malformed _ _ hc] at h
      exact Except.noConfusion h
    | grouped t' =>
      rw [smartGroupStep_grouped _ _ _ hc, except_bind_ok] at h
      apply ih _ ?_ h
      intro pl hpl
      rcases mem_dinsert _ _ _ _ hpl with hpl' | hpl'
      · subst hpl'
        simp
      · exact hne pl hpl'

theorem ec0_spec (ns : List Node) : ∀ (m : List (String × ℕ)) (K : String → Prop),
    (∀ k, (dlookup m k).isSome ↔ K k) → (∀ k, dgetD m k 0 = 0) →
    (∀ k, (dlookup (ns.foldl (fun m n => dinsert m n.id 0) m) k).isSome ↔
      (k ∈ ns.map Node.id ∨ K k)) ∧
    (∀ k, dgetD (ns.foldl (fun m n => dinsert m n.id 0) m) k 0 = 0) := by
  induction ns with
  | nil =>
    intro m K hK h0
    constructor
    · intro k
      rw [List.foldl_nil, hK]
      simp
    · intro k
      rw [List.foldl_nil]
      exact h0 k
  | cons n rest ih =>
    intro m K hK h0
    rw [List.foldl_cons]
    have ih' := ih (dinsert m n.id 0) (fun k => k = n.id ∨ K k) ?_ ?_
    · constructor
      · intro k
        rw [ih'.1 k]
        simp only [List.map_cons, List.mem_cons]
        tauto
      · exact ih'.2
    · intro k
      rw [dlookup_dinsert]
      by_cases hk : k = n.id
      · simp [hk]
      · simp [hk, hK k]
    · intro k
      rw [dgetD_dinsert]
      by_cases hk : k = n.id
      · simp [hk]
      · simp [hk, h0 k]

theorem ecfold_spec (es : List Edge) (m : List (String × ℕ))
    (K : String → Prop) (hK : ∀ k, (dlookup m k).isSome ↔ K k)
    (hes : ∀ e ∈ es, K e.source ∧ K e.target) :
    ∃ m', es.foldlM ecStep m = Except.ok m' ∧
      (∀ k, (dlookup m' k).isSome ↔ K k) ∧
      (∀ k, dgetD m' k 0 = dgetD m k 0 + degCount es k) := by
  induction es generalizing m with
  | nil =>
    refine ⟨m, rfl, hK, ?_⟩
    intro k
    unfold degCount
    simp [List.countP_nil]
  | cons e rest ih =>
    have hsrc := (hK e.source).mpr (hes e (List.mem_cons_self _ _)).1
    cases hq1 : dlookup m e.source with
    | none => rw [hq1] at hsrc; simp at hsrc
    | some c =>
      have hc : c = dgetD m e.source 0 := by
        unfold dgetD
        rw [hq1]
        rfl
      have hK1 : ∀ k, (dlookup (dinsert m e.source (c + 1)) k).isSome ↔ K k := by
        intro k
        rw [dlookup_dinsert]
        by_cases hk : k = e.source
        · subst hk
          rw [if_pos rfl]
          simp only [Option.isSome_some, true_iff]
          exact (hes e (List.mem_cons_self _ _)).1
        · rw [if_neg hk]
          exact hK k
      have htgt := (hK1 e.target).mpr (hes e (List.mem_cons_self _ _)).2
      cases hq2 : dlookup (dinsert m e.source (c + 1)) e.target with
      | none => rw [hq2] at htgt; simp at htgt
      | some c2 =>
        have hstep : ecStep m e = Except.ok
            (dinsert (dinsert m e.source (c + 1)) e.target (c2 + 1)) := by
          unfold ecStep
          rw [hq1]
          show (match dlookup (dinsert m e.source (c + 1)) e.target with
            | none => Except.error ()
            | some c2 => Except.ok (dinsert (dinsert m e.source (c + 1))
                e.target (c2 + 1))) = _
          rw [hq2]
        have hK2 : ∀ k, (dlookup (dinsert (dinsert m e.source (c + 1))
            e.target (c2 + 1)) k).isSome ↔ K k := by
          intro k
          rw [dlookup_dinsert]
          by_cases hk : k = e.target
          · subst hk
            rw [if_pos rfl]
            simp only [Option.isSome_some, true_iff]
            exact (hes e (List.mem_cons_self _ _)).2
          · rw [if_neg hk]
            exact hK1 k
        obtain ⟨m', hm', hKm', hval⟩ := ih
          (dinsert (dinsert m e.source (c + 1)) e.target (c2 + 1)) hK2
          (fun e' he' => hes e' (List.mem_cons_of_mem _ he'))
        refine ⟨m', ?_, hKm', ?_⟩
        · rw [List.foldlM_cons, hstep, except_bind_ok]
          exact hm'
        · intro k
          rw [hval k]
          have hc2 : c2 = dgetD (dinsert m e.source (c + 1)) e.target 0 := by
            unfold dgetD
            rw [hq2]
            rfl
          rw [hc] at hc2
          rw [hc, hc2, dgetD_incr2 m e.source e.target k, degCount_cons]
          omega

theorem dinserts_ne_nil {κ α : Type} [DecidableEq κ] (m : List (κ × α))
    (l : List (κ × α)) (h : m ≠ [] ∨ l ≠ []) : dinserts m l ≠ [] := by
  induction l generalizing m with
  | nil =>
    rcases h with h | h
    · exact h
    · exact absurd rfl h
  | cons p rest ih =>
    show dinserts (dinsert m p.1 p.2) rest ≠ []
    exact ih _ (Or.inl (dinsert_ne_nil _ _ _))

theorem nodup_map_inj_on {α β : Type} (l : List α) (f : α → β)
    (h : (l.map f).Nodup) (a b : α) (ha : a ∈ l) (hb : b ∈ l)
    (hf : f a = f b) : a = b := by
  induction l with
  | nil => simp at ha
  | cons x rest ih =>
    simp only [List.map_cons, List.nodup_cons] at h
    rcases List.mem_cons.mp ha with ha' | ha' <;>
      rcases List.mem_cons.mp hb with hb' | hb'
    · rw [ha', hb']
    · subst ha'
      exact absurd (hf ▸ List.mem_map.mpr ⟨b, hb', rfl⟩) h.1
    · subst hb'
      exact absurd (hf ▸ List.mem_map.mpr ⟨a, ha', rfl⟩ : f b ∈ _) h.1
    · exact ih h.2 ha' hb'

theorem smartEdgeCounts_spec (ns : List Node) (es : List Edge)
    (href : ∀ e ∈ es, e.source ∈ ns.map Node.id ∧ e.target ∈ ns.map Node.id) :
    ∃ ec, smartEdgeCounts ns es = Except.ok ec ∧
      ∀ k, dgetD ec k 0 = degCount es k := by
  obtain ⟨h1, h2⟩ := ec0_spec ns [] (fun _ => False)
    (by intro k; simp [dlookup]) (by intro k; rfl)
  obtain ⟨m', hm', _, hval⟩ := ecfold_spec es
    (ns.foldl (fun m n => dinsert m n.id 0) [])
    (fun k => k ∈ ns.map Node.id)
    (by intro k; rw [h1 k]; simp)
    (fun e he => href e he)
  refine ⟨m', hm', ?_⟩
  intro k
  rw [hval k, h2 k]
  omega

theorem mem_smartFlat (groups : List (Int × List Node)) (gi si : ℕ)
    (t : Int) (ms : List Node) (n : Node)
    (hg : groups[gi]? = some (t, ms)) (hs : ms[si]? = some n) :
    (gi, si, ms.length, n) ∈ smartFlat groups := by
  unfold smartFlat
  apply List.mem_flatMap.mpr
  refine ⟨(gi, (t, ms)), ?_, ?_⟩
  · rw [List.mem_enum_iff_getElem?]
    exact hg
  · apply List.mem_map.mpr
    refine ⟨(si, n), ?_, rfl⟩
    rw [List.mem_enum_iff_getElem?]
    exact hs

theorem smartFlat_node_mem (groups : List (Int × List Node))
    (x : ℕ × ℕ × ℕ × Node) (h : x ∈ smartFlat groups) :
    ∃ t ms, (t, ms) ∈ groups ∧ x.2.2.2 ∈ ms := by
  unfold smartFlat at h
  rcases List.mem_flatMap.mp h with ⟨gi, hgi, hx⟩
  rcases List.mem_map.mp hx with ⟨si, hsi, hmap⟩
  refine ⟨gi.2.1, gi.2.2, ?_, ?_⟩
  · have h2 := List.getElem?_mem (List.mem_enum_iff_getElem?.mp hgi)
    rw [Prod.mk.eta]
    exact h2
  · have h3 := List.getElem?_mem (List.mem_enum_iff_getElem?.mp hsi)
    have h4 : x.2.2.2 = si.2 := by rw [← hmap]
    rw [h4]
    exact h3

theorem mem_placements_shape (cA sA : ℕ → ℕ → ℚ) (rnd : ℚ → ℚ → ℕ → ℚ)
    (ec : List (String × ℕ)) (groups : List (Int × List Node))
    (i : String) (p : Pos)
    (h : (i, p) ∈ smartPlacements cA sA rnd ec groups) :
    ∃ k gi si len n, n.id = i ∧
      p = smartPos cA sA rnd ec groups.length k gi si len n := by
  unfold smartPlacements at h
  rcases List.mem_map.mp h with ⟨ki, _, hmap⟩
  refine ⟨ki.1, ki.2.1, ki.2.2.1, ki.2.2.2.1, ki.2.2.2.2, ?_, ?_⟩
  · have : (ki.2.2.2.2.id, smartPos cA sA rnd ec groups.length ki.1 ki.2.1
        ki.2.2.1 ki.2.2.2.1 ki.2.2.2.2) = (i, p) := hmap
    exact (Prod.mk.injEq _ _ _ _).mp this |>.1
  · have : (ki.2.2.2.2.id, smartPos cA sA rnd ec groups.length ki.1 ki.2.1
        ki.2.2.1 ki.2.2.2.1 ki.2.2.2.2) = (i, p) := hmap
    exact ((Prod.mk.injEq _ _ _ _).mp this |>.2).symm

theorem placements_keys_mem (cA sA : ℕ → ℕ → ℚ) (rnd : ℚ → ℚ → ℕ → ℚ)
    (ec : List (String × ℕ)) (groups : List (Int × List Node)) (i : String)
    (h : i ∈ (smartPlacements cA sA rnd ec groups).map Prod.fst) :
    ∃ x ∈ smartFlat groups, x.2.2.2.id = i := by
  rcases List.mem_map.mp h with ⟨pr, hpr, hfst⟩
  unfold smartPlacements at hpr
  rcases List.mem_map.mp hpr with ⟨ki, hki, hmap⟩
  have hkimem : ki.2 ∈ smartFlat groups :=
    List.getElem?_mem (List.mem_enum_iff_getElem?.mp hki)
  refine ⟨ki.2, hkimem, ?_⟩
  rw [← hfst, ← hmap]

theorem placements_mem_of_grouped (cA sA : ℕ → ℕ → ℚ) (rnd : ℚ → ℚ → ℕ → ℚ)
    (ec : List (String × ℕ)) (groups : List (Int × List Node))
    (t : Int) (ms : List Node) (n : Node)
    (hg : (t, ms) ∈ groups) (hn : n ∈ ms) :
    n.id ∈ (smartPlacements cA sA rnd ec groups).map Prod.fst := by
  rcases List.mem_iff_getElem?.mp hg with ⟨gi, hgi⟩
  rcases List.mem_iff_getElem?.mp hn with ⟨si, hsi⟩
  have hflat := mem_smartFlat groups gi si t ms n hgi hsi
  rcases List.mem_iff_getElem?.mp hflat with ⟨k, hk⟩
  have henum : (k, (gi, si, ms.length, n)) ∈ (smartFlat groups).enum :=
    List.mem_enum_iff_getElem?.mpr hk
  apply List.mem_map.mpr
  refine ⟨(n.id, smartPos cA sA rnd ec groups.length k gi si ms.length n), ?_, rfl⟩
  unfold smartPlacements
  exact List.mem_map.mpr ⟨(k, (gi, si, ms.length, n)), henum, rfl⟩

theorem mem_keys_smartUngrouped (rnd : ℚ → ℚ → ℕ → ℚ) (ns : List Node)
    (ps : List (String × Pos)) (ctr : ℕ) (n : Node) (hn : n ∈ ns)
    (hnone : dlookup ps n.id = none) :
    n.id ∈ (smartUngrouped rnd ns ps ctr).map Prod.fst := by
  have hfil : n ∈ ns.filter (fun n => (dlookup ps n.id).isNone) :=
    List.mem_filter.mpr ⟨hn, by rw [hnone]; rfl⟩
  rcases List.mem_iff_getElem?.mp hfil with ⟨i, hi⟩
  have henum : (i, n) ∈ (ns.filter (fun n => (dlookup ps n.id).isNone)).enum :=
    List.mem_enum_iff_getElem?.mpr hi
  apply List.mem_map.mpr
  refine ⟨(n.id, Pos.mk (rnd (-5000) 5000 (ctr + 3 * i))
    (rnd (-5000) 5000 (ctr + 3 * i + 1))
    (rnd (-5000) 5000 (ctr + 3 * i + 2))), ?_, rfl⟩
  unfold smartUngrouped
  exact List.mem_map.mpr ⟨(i, n), henum, rfl⟩

theorem keys_smartUngrouped_sub (rnd : ℚ → ℚ → ℕ → ℚ) (ns : List Node)
    (ps : List (String × Pos)) (ctr : ℕ) (i : String)
    (h : i ∈ (smartUngrouped rnd ns ps ctr).map Prod.fst) :
    ∃ m ∈ ns, m.id = i ∧ dlookup ps m.id = none := by
  rcases List.mem_map.mp h with ⟨pr, hpr, hfst⟩
  unfold smartUngrouped at hpr
  rcases List.mem_map.mp hpr with ⟨ip, hip, hmap⟩
  have hmem : ip.2 ∈ ns.filter (fun n => (dlookup ps n.id).isNone) :=
    List.getElem?_mem (List.mem_enum_iff_getElem?.mp hip)
  have hm := List.mem_filter.mp hmem
  refine ⟨ip.2, hm.1, ?_, ?_⟩
  · rw [← hfst, ← hmap]
  · have := hm.2
    simp only [Option.isNone_iff_eq_none] at this
    exact this

theorem mem_smartUngrouped_shape (rnd : ℚ → ℚ → ℕ → ℚ) (ns : List Node)
    (ps : List (String × Pos)) (ctr : ℕ) (i : String) (p : Pos)
    (h : (i, p) ∈ smartUngrouped rnd ns ps ctr) :
    ∃ j, p = Pos.mk (rnd (-5000) 5000 j) (rnd (-5000) 5000 (j + 1))
      (rnd (-5000) 5000 (j + 2)) := by
  unfold smartUngrouped at h
  rcases List.mem_map.mp h with ⟨ip, _, hmap⟩
  refine ⟨ctr + 3 * ip.1, ?_⟩
  have : (ip.2.id, Pos.mk (rnd (-5000) 5000 (ctr + 3 * ip.1))
      (rnd (-5000) 5000 (ctr + 3 * ip.1 + 1))
      (rnd (-5000) 5000 (ctr + 3 * ip.1 + 2))) = (i, p) := hmap
  exact ((Prod.mk.injEq _ _ _ _).mp this |>.2).symm

theorem smart_core_out (cA sA : ℕ → ℕ → ℚ) (rnd : ℚ → ℚ → ℕ → ℚ)
    (ns : List Node) (es : List Edge)
    (href : ∀ e ∈ es, e.source ∈ ns.map Node.id ∧ e.target ∈ ns.map Node.id) :
    (smart_core cA sA rnd ns es = Except.error () ∧
      ((∃ n ∈ ns, ipClass n = IpClass.malformed) ∨
        (∀ n ∈ ns, ∀ t, ipClass n ≠ IpClass.grouped t))) ∨
    (∃ ec gs, (∀ k, dgetD ec k 0 = degCount es k) ∧
      gs ≠ [] ∧
      (¬ ∃ n ∈ ns, ipClass n = IpClass.malformed) ∧
      (∃ n ∈ ns, ∃ t, ipClass n = IpClass.grouped t) ∧
      ns.foldlM smartGroupStep [] = Except.ok gs ∧
      (∀ pl ∈ gs, pl.2 ≠ []) ∧
      smart_core cA sA rnd ns es = Except.ok
        (dinserts (dinserts [] (smartPlacements cA sA rnd ec gs))
          (smartUngrouped rnd ns
            (dinserts [] (smartPlacements cA sA rnd ec gs))
            (2 * (smartFlat gs).length)))) := by
  obtain ⟨ec, hec, hval⟩ := smartEdgeCounts_spec ns es href
  unfold smart_core
  rw [hec, except_bind_ok]
  cases hgs : smartGroups ns with
  | error u =>
    cases u
    left
    constructor
    · rfl
    · left
      unfold smartGroups at hgs
      exact (smartGroups_fold_error_iff ns []).mp hgs
  | ok gs =>
    unfold smartGroups at hgs
    rw [except_bind_ok]
    have hnomal : ¬ ∃ n ∈ ns, ipClass n = IpClass.malformed := by
      intro hc
      have := (smartGroups_fold_error_iff ns []).mpr hc
      rw [hgs] at this
      exact Except.noConfusion this
    by_cases hlen : gs.length = 0
    · rw [if_pos hlen]
      left
      constructor
      · rfl
      · right
        exact (smartGroups_nil_iff ns gs hgs).mp (List.length_eq_zero.mp hlen)
    · rw [if_neg hlen]
      right
      refine ⟨ec, gs, hval, fun hh => hlen (by rw [hh]; rfl), hnomal, ?_, hgs,
        smartGroups_entries_ne_nil ns [] gs (by simp) hgs, rfl⟩
      by_contra hall
      push_neg at hall
      have : gs = [] := (smartGroups_nil_iff ns gs hgs).mpr
        (fun n hn t hc => hall n hn t hc)
      exact hlen (by rw [this]; rfl)

theorem calculate_smart_layout_empty_iff (cA sA : ℕ → ℕ → ℚ)
    (rnd : ℚ → ℚ → ℕ → ℚ) (ns : List Node) (es : List Edge)
    (href : ∀ e ∈ es, e.source ∈ ns.map Node.id ∧ e.target ∈ ns.map Node.id) :
    calculate_smart_layout cA sA rnd ns es = [] ↔
      (∃ n ∈ ns, ipClass n = IpClass.malformed) ∨
        (∀ n ∈ ns, ∀ t, ipClass n ≠ IpClass.grouped t) := by
  rcases smart_core_out cA sA rnd ns es href with
    ⟨herr, hcond⟩ | ⟨ec, gs, _, hne, hnomal, hgrp, hgs, hnn, hok⟩
  · unfold calculate_smart_layout
    rw [herr]
    exact iff_of_true rfl hcond
  · unfold calculate_smart_layout
    rw [hok]
    apply iff_of_false
    · rcases List.exists_mem_of_ne_nil gs hne with ⟨pl, hpl⟩
      rcases List.exists_mem_of_ne_nil pl.2 (hnn pl hpl) with ⟨m, hm⟩
      have hkey := placements_mem_of_grouped cA sA rnd ec gs pl.1 pl.2 m
        (by rw [Prod.mk.eta]; exact hpl) hm
      have hpsne : smartPlacements cA sA rnd ec gs ≠ [] := by
        intro hh
        rw [hh] at hkey
        simp at hkey
      exact dinserts_ne_nil _ _ (Or.inl (dinserts_ne_nil _ _ (Or.inr hpsne)))
    · rintro (hc | hc)
      · exact hnomal hc
      · rcases hgrp with ⟨n, hn, t, ht⟩
        exact hc n hn t ht

theorem calculate_smart_layout_covers (cA sA : ℕ → ℕ → ℚ)
    (rnd : ℚ → ℚ → ℕ → ℚ) (ns : List Node) (es : List Edge)
    (href : ∀ e ∈ es, e.source ∈ ns.map Node.id ∧ e.target ∈ ns.map Node.id)
    (hne : calculate_smart_layout cA sA rnd ns es ≠ []) :
    ∀ n ∈ ns, (dlookup (calculate_smart_layout cA sA rnd ns es) n.id).isSome := by
  rcases smart_core_out cA sA rnd ns es href with
    ⟨herr, _⟩ | ⟨ec, gs, _, _, _, _, _, _, hok⟩
  · unfold calculate_smart_layout at hne
    rw [herr] at hne
    exact absurd rfl hne
  · unfold calculate_smart_layout at hne ⊢
    rw [hok] at hne ⊢
    intro n hn
    rw [isSome_dlookup_dinserts]
    by_cases hin : (dlookup (dinserts [] (smartPlacements cA sA rnd ec gs)) n.id).isSome
    · exact Or.inr hin
    · left
      apply mem_keys_smartUngrouped rnd ns _ _ n hn
      cases hq : dlookup (dinserts [] (smartPlacements cA sA rnd ec gs)) n.id with
      | none => rfl
      | some p => rw [hq] at hin; simp at hin

theorem calculate_smart_layout_grouped_pos (cA sA : ℕ → ℕ → ℚ)
    (rnd : ℚ → ℚ → ℕ → ℚ) (ns : List Node) (es : List Edge)
    (href : ∀ e ∈ es, e.source ∈ ns.map Node.id ∧ e.target ∈ ns.map Node.id)
    (hne : calculate_smart_layout cA sA rnd ns es ≠ [])
    (n : Node) (hn : n ∈ ns) (t : Int) (hc : ipClass n = IpClass.grouped t) :
    ∃ j gi si len total,
      dlookup (calculate_smart_layout cA sA rnd ns es) n.id = some
        (Pos.mk (4000 * cA gi total + 600 * cA si len + rnd (-300) 300 j)
                (4000 * sA gi total + 600 * sA si len + rnd (-300) 300 (j + 1))
                (((degCount es n.id : ℕ) : ℚ) * 50)) := by
  rcases smart_core_out cA sA rnd ns es href with
    ⟨herr, _⟩ | ⟨ec, gs, hval, _, _, _, hgs, _, hok⟩
  · unfold calculate_smart_layout at hne
    rw [herr] at hne
    exact absurd rfl hne
  · unfold calculate_smart_layout at hne ⊢
    rw [hok] at hne ⊢
    obtain ⟨ms, hms, hnms⟩ := smartGroups_grouped_mem ns [] gs t n hn hc hgs
    have hkey := placements_mem_of_grouped cA sA rnd ec gs t ms n
      (dlookup_mem _ _ _ hms) hnms
    have hsome : (dlookup (dinserts [] (smartPlacements cA sA rnd ec gs))
        n.id).isSome := by
      rw [isSome_dlookup_dinserts]
      left
      exact hkey
    cases hq : dlookup (dinserts [] (smartPlacements cA sA rnd ec gs)) n.id with
    | none => rw [hq] at hsome; simp at hsome
    | some p =>
      have hfin : dlookup (dinserts
          (dinserts [] (smartPlacements cA sA rnd ec gs))
          (smartUngrouped rnd ns
            (dinserts [] (smartPlacements cA sA rnd ec gs))
            (2 * (smartFlat gs).length))) n.id = some p := by
        rw [dlookup_dinserts_of_not_mem]
        · exact hq
        · intro hmem
          rcases keys_smartUngrouped_sub rnd ns _ _ n.id hmem with
            ⟨m, _, hmid, hmnone⟩
          rw [hmid, hq] at hmnone
          exact Option.noConfusion hmnone
      rcases dlookup_dinserts_some _ _ _ _ hq with hqm | hqm
      · rcases mem_placements_shape cA sA rnd ec gs n.id p hqm with
          ⟨k, gi, si, len, m, hmid, hppos⟩
        refine ⟨2 * k, gi, si, len, gs.length, ?_⟩
        rw [hfin, hppos]
        unfold smartPos
        rw [hmid, hval n.id]
      · rw [dlookup] at hqm
        exact Option.noConfusion hqm

theorem calculate_smart_layout_ungroupable_pos (cA sA : ℕ → ℕ → ℚ)
    (rnd : ℚ → ℚ → ℕ → ℚ) (ns : List Node) (es : List Edge)
    (href : ∀ e ∈ es, e.source ∈ ns.map Node.id ∧ e.target ∈ ns.map Node.id)
    (hnd : (ns.map Node.id).Nodup)
    (hne : calculate_smart_layout cA sA rnd ns es ≠ [])
    (n : Node) (hn : n ∈ ns) (hc : ipClass n = IpClass.ungroupable) :
    ∃ j, dlookup (calculate_smart_layout cA sA rnd ns es) n.id = some
      (Pos.mk (rnd (-5000) 5000 j) (rnd (-5000) 5000 (j + 1))
        (rnd (-5000) 5000 (j + 2))) := by
  rcases smart_core_out cA sA rnd ns es href with
    ⟨herr, _⟩ | ⟨ec, gs, _, _, _, _, hgs, _, hok⟩
  · unfold calculate_smart_layout at hne
    rw [herr] at hne
    exact absurd rfl hne
  · unfold calculate_smart_layout at hne ⊢
    rw [hok] at hne ⊢
    show ∃ j, dlookup (dinserts
      (dinserts [] (smartPlacements cA sA rnd ec gs))
      (smartUngrouped rnd ns
        (dinserts [] (smartPlacements cA sA rnd ec gs))
        (2 * (smartFlat gs).length))) n.id = some
      (Pos.mk (rnd (-5000) 5000 j) (rnd (-5000) 5000 (j + 1))
        (rnd (-5000) 5000 (j + 2)))
    have hnokey : n.id ∉ (smartPlacements cA sA rnd ec gs).map Prod.fst := by
      intro hmem
      rcases placements_keys_mem cA sA rnd ec gs n.id hmem with ⟨x, hx, hxid⟩
      rcases smartFlat_node_mem gs x hx with ⟨t, ms, htms, hxms⟩
      have horigin := smartGroups_entries_origin ns
        (fun m t => m ∈ ns ∧ ipClass m = IpClass.grouped t) [] gs
        (by intro pl hpl; simp at hpl)
        (fun m hm t htc => ⟨hm, htc⟩) hgs
      have hx2 := horigin (t, ms) htms x.2.2.2 hxms
      have heqn : x.2.2.2 = n :=
        nodup_map_inj_on ns Node.id hnd _ _ hx2.1 hn hxid
      rw [heqn] at hx2
      rw [hc] at hx2
      exact IpClass.noConfusion hx2.2
    have hinnone : dlookup (dinserts [] (smartPlacements cA sA rnd ec gs))
        n.id = none := by
      cases hq : dlookup (dinserts [] (smartPlacements cA sA rnd ec gs)) n.id with
      | none => rfl
      | some p =>
        have : (dlookup (dinserts [] (smartPlacements cA sA rnd ec gs))
            n.id).isSome := by rw [hq]; rfl
        rw [isSome_dlookup_dinserts] at this
        rcases this with hmem | habs
        · exact absurd hmem hnokey
        · rw [dlookup] at habs
          simp at habs
    have hkey := mem_keys_smartUngrouped rnd ns
      (dinserts [] (smartPlacements cA sA rnd ec gs))
      (2 * (smartFlat gs).length) n hn hinnone
    have hsome : (dlookup (dinserts
        (dinserts [] (smartPlacements cA sA rnd ec gs))
        (smartUngrouped rnd ns
          (dinserts [] (smartPlacements cA sA rnd ec gs))
          (2 * (smartFlat gs).length))) n.id).isSome := by
      rw [isSome_dlookup_dinserts]
      left
      exact hkey
    cases hq : dlookup (dinserts
        (dinserts [] (smartPlacements cA sA rnd ec gs))
        (smartUngrouped rnd ns
          (dinserts [] (smartPlacements cA sA rnd ec gs))
          (2 * (smartFlat gs).length))) n.id with
    | none => rw [hq] at hsome; simp at hsome
    | some p =>
      rcases dlookup_dinserts_some _ _ _ _ hq with hqm | hqm
      · rcases mem_smartUngrouped_shape rnd ns _ _ n.id p hqm with ⟨j, hj⟩
        exact ⟨j, by rw [hj]⟩
      · rw [hinnone] at hqm
        exact Option.noConfusion hqm

theorem grid_keys (ns : List Node) (d : ℚ) :
    ((ns.enum.map (fun p =>
      (p.2.id, (⟨((p.1 % ceilSqrt ns.length : ℕ) : ℚ) * d,
                ((p.1 / ceilSqrt ns.length : ℕ) : ℚ) * d, 0⟩ : Pos)))).map
      Prod.fst) = ns.map Node.id := by
  rw [List.map_map]
  show ns.enum.map (fun p => p.2.id) = ns.map Node.id
  have h1 : (fun (p : ℕ × Node) => p.2.id) = Node.id ∘ Prod.snd := rfl
  rw [h1, ← List.map_map]
  show List.map Node.id (List.map Prod.snd (List.enumFrom 0 ns)) =
    List.map Node.id ns
  rw [List.enumFrom_map_snd]

theorem calculate_grid_layout_lookup (ns : List Node)
    (hnd : (ns.map Node.id).Nodup) (i : ℕ) (hi : i < ns.length) :
    dlookup (calculate_grid_layout ns) (ns.get ⟨i, hi⟩).id =
      some ⟨((i % ceilSqrt ns.length : ℕ) : ℚ) * 300,
            ((i / ceilSqrt ns.length : ℕ) : ℚ) * 300, 0⟩ := by
  unfold calculate_grid_layout
  apply dlookup_dinserts_mem
  · rw [grid_keys]
    exact hnd
  · apply List.mem_map.mpr
    refine ⟨(i, ns.get ⟨i, hi⟩), ?_, rfl⟩
    rw [List.mem_enum_iff_getElem?]
    simp

theorem filter_data_eq (g : Graph) (sd ed : String) (st en : ℚ)
    (hs : strptimeYMDHM sd = some st) (he : strptimeYMDHM ed = some en) :
    filter_data g sd ed = Except.ok
      ⟨g.nodes.filter (fun n => decide (n.id ∈
        (g.edges.filter (fun e =>
          decide (st ≤ e.timestamp ∧ e.timestamp ≤ en + 86400 - 1))).foldr
          (fun e acc => e.source :: e.target :: acc) [])),
       g.edges.filter (fun e =>
         decide (st ≤ e.timestamp ∧ e.timestamp ≤ en + 86400 - 1))⟩ := by
  unfold filter_data
  rw [hs, he]

theorem exists_edge_of_degPos (es : List Edge) (k : String)
    (h : 1 ≤ degCount es k) : ∃ e ∈ es, e.source = k ∨ e.target = k := by
  unfold degCount at h
  rcases Nat.lt_or_ge 0 (es.countP (fun e => decide (e.source = k))) with hs | hs
  · rcases List.countP_pos_iff.mp hs with ⟨e, he, hp⟩
    exact ⟨e, he, Or.inl (of_decide_eq_true hp)⟩
  · have ht : 0 < es.countP (fun e => decide (e.target = k)) := by omega
    rcases List.countP_pos_iff.mp ht with ⟨e, he, hp⟩
    exact ⟨e, he, Or.inr (of_decide_eq_true hp)⟩

/-- C1: every snapshot a successful CSV import stores satisfies referential
integrity (each edge's source and target id names a node of the same
snapshot), and the property persists across any sequence of successful
`/layout` recomputations. -/
theorem c1_referential_integrity (pt : String → Option ℚ)
    (ecf : ℕ → ℕ → String) (cA sA : ℕ → ℕ → ℚ) (rnd : ℚ → ℚ → ℕ → ℚ)
    (rows : List Row) (layout : String) (g g' : Graph)
    (hok : process_csv pt ecf cA sA rnd rows layout = Except.ok g)
    (hreach : LayoutReach g g') : refOk g'.nodes g'.edges := by
  have hwf := (process_csv_ok_spec pt ecf cA sA rnd rows layout g hok).1
  exact (wf_reach g g' hwf hreach).2.1

theorem c1_witness :
    process_csv pt0 ec0 cA0 sA0 rn0 rows0 "grid" = Except.ok snap0 ∧
    refOk snap0.nodes snap0.edges :=
  ⟨by decide, c1_referential_integrity pt0 ec0 cA0 sA0 rn0 rows0 "grid"
    snap0 snap0 (by decide) Relation.ReflTransGen.refl⟩

/-- C2: if any processed row (non-empty event time, computer and source IP)
has a malformed `EventTime`, the whole import fails with a structured error:
`process_csv` returns an error, the `/upload` response is that error, and the
previously stored snapshot is left unchanged. -/
theorem c2_failfast_abort (pt : String → Option ℚ) (ecf : ℕ → ℕ → String)
    (cA sA : ℕ → ℕ → ℚ) (rnd : ℚ → ℚ → ℕ → ℚ) (rows : List Row)
    (layout : String) (st : Option Graph)
    (hbad : ∃ r ∈ rows, processedBadRow pt r) :
    (∃ msg, process_csv pt ecf cA sA rnd rows layout = Except.error msg) ∧
    (∃ msg, (upload_file pt ecf cA sA rnd st rows layout).1 = Except.error msg) ∧
    (upload_file pt ecf cA sA rnd st rows layout).2 = st := by
  obtain ⟨msg, hmsg⟩ := process_csv_error_of_bad pt ecf cA sA rnd rows layout hbad
  refine ⟨⟨msg, hmsg⟩, ⟨msg, ?_⟩, ?_⟩ <;>
    · unfold upload_file
      rw [hmsg]

theorem c2_witness :
    (∃ r ∈ rowsBad, processedBadRow pt0 r) ∧
    ((∃ msg, process_csv pt0 ec0 cA0 sA0 rn0 rowsBad "grid" = Except.error msg) ∧
     (∃ msg, (upload_file pt0 ec0 cA0 sA0 rn0 (some snap0) rowsBad "grid").1 =
       Except.error msg) ∧
     (upload_file pt0 ec0 cA0 sA0 rn0 (some snap0) rowsBad "grid").2 = some snap0) :=
  ⟨by decide, c2_failfast_abort pt0 ec0 cA0 sA0 rn0 rowsBad "grid" (some snap0)
    (by decide)⟩

/-- C3 (counterexample): for `end_date = 2023-01-01T12:00` the code includes
an edge timestamped 2023-01-02T06:00 (the bound is `end_date` plus one day
minus one second), although that timestamp lies after the end of
`end_date`'s calendar day, so the range of the claim contains no edge at
all. -/
theorem c3_counterexample :
    filter_data gC3 "2023-01-01T00:00" "2023-01-01T12:00" =
      Except.ok ⟨gC3.nodes, gC3.edges⟩ ∧
    gC3.edges ≠ [] ∧
    spec_filter_edges gC3 "2023-01-01T00:00" "2023-01-01T12:00" = some [] :=
  ⟨by decide, by decide, by decide⟩

/-- C3 (amended): for every snapshot and `/filter` request whose dates parse
in `YYYY-MM-DDTHH:MM` form, the returned edges are exactly those whose
timestamp lies in the inclusive range from `start_date` to `end_date` plus
one day minus one second (the end of `end_date`'s calendar day only when its
time-of-day is 00:00), the returned nodes are exactly the endpoints of those
edges, a range containing no timestamp returns empty nodes and edges, and a
range containing all timestamps returns every edge. -/
theorem c3_filter_range (g : Graph) (sd ed : String) (st en : ℚ)
    (hs : strptimeYMDHM sd = some st) (he : strptimeYMDHM ed = some en) :
    ∃ r, filter_data g sd ed = Except.ok r ∧
      r.edges = g.edges.filter (fun e =>
        decide (st ≤ e.timestamp ∧ e.timestamp ≤ en + 86400 - 1)) ∧
      (∀ n, n ∈ r.nodes ↔ n ∈ g.nodes ∧
        ∃ e ∈ r.edges, e.source = n.id ∨ e.target = n.id) ∧
      ((∀ e ∈ g.edges, e.timestamp < st ∨ en + 86400 - 1 < e.timestamp) →
        r = ⟨[], []⟩) ∧
      ((∀ e ∈ g.edges, st ≤ e.timestamp ∧ e.timestamp ≤ en + 86400 - 1) →
        r.edges = g.edges) := by
  rw [filter_data_eq g sd ed st en hs he]
  refine ⟨_, rfl, rfl, ?_, ?_, ?_⟩
  · intro n
    rw [List.mem_filter]
    constructor
    · rintro ⟨hn, hmem⟩
      refine ⟨hn, ?_⟩
      have := of_decide_eq_true hmem
      exact (mem_endpoints _ n.id).mp this
    · rintro ⟨hn, hex⟩
      exact ⟨hn, decide_eq_true ((mem_endpoints _ n.id).mpr hex)⟩
  · intro hout
    have hes : g.edges.filter (fun e =>
        decide (st ≤ e.timestamp ∧ e.timestamp ≤ en + 86400 - 1)) = [] := by
      apply List.filter_eq_nil.mpr
      intro e he'
      rcases hout e he' with h | h <;>
        · simp only [decide_eq_true_eq]
          rintro ⟨h1, h2⟩
          linarith
    rw [hes]
    have hns : g.nodes.filter (fun n => decide (n.id ∈
        (([] : List Edge).foldr (fun e acc => e.source :: e.target :: acc) []))) = [] := by
      apply List.filter_eq_nil.mpr
      intro n _
      simp
    show (⟨_, _⟩ : SubGraph) = ⟨[], []⟩
    rw [← hns, ← hes]
  · intro hall
    show g.edges.filter _ = g.edges
    apply List.filter_eq_self.mpr
    intro e he'
    exact decide_eq_true (hall e he')

theorem c3_witness :
    (strptimeYMDHM "2023-01-01T00:00" = some 1672531200 ∧
     strptimeYMDHM "2023-01-03T00:00" = some 1672704000) ∧
    (∃ r, filter_data gC3 "2023-01-01T00:00" "2023-01-03T00:00" = Except.ok r ∧
      r.edges = gC3.edges.filter (fun e =>
        decide ((1672531200 : ℚ) ≤ e.timestamp ∧
          e.timestamp ≤ 1672704000 + 86400 - 1)) ∧
      (∀ n, n ∈ r.nodes ↔ n ∈ gC3.nodes ∧
        ∃ e ∈ r.edges, e.source = n.id ∨ e.target = n.id) ∧
      ((∀ e ∈ gC3.edges, e.timestamp < 1672531200 ∨
        (1672704000 : ℚ) + 86400 - 1 < e.timestamp) → r = ⟨[], []⟩) ∧
      ((∀ e ∈ gC3.edges, (1672531200 : ℚ) ≤ e.timestamp ∧
        e.timestamp ≤ 1672704000 + 86400 - 1) → r.edges = gC3.edges)) :=
  ⟨⟨by decide, by decide⟩, c3_filter_range gC3 "2023-01-01T00:00"
    "2023-01-03T00:00" 1672531200 1672704000 (by decide) (by decide)⟩

/-- C4: in every snapshot a successful import produces, each node's size is
`calculate_node_size degree max_degree = 10 + degree/max_degree * 20`; size
is monotonically non-decreasing in degree, every maximum-degree node has size
exactly 30, and every node's size is strictly greater than 10. -/
theorem c4_node_size (pt : String → Option ℚ) (ecf : ℕ → ℕ → String)
    (cA sA : ℕ → ℕ → ℚ) (rnd : ℚ → ℚ → ℕ → ℚ) (rows : List Row)
    (layout : String) (g : Graph)
    (hok : process_csv pt ecf cA sA rnd rows layout = Except.ok g) :
    (∀ n ∈ g.nodes, n.size = calculate_node_size
      ((degCount g.edges n.id : ℕ) : ℚ) ((maxNodeDeg g : ℕ) : ℚ)) ∧
    (∀ n ∈ g.nodes, ∀ m ∈ g.nodes,
      degCount g.edges n.id ≤ degCount g.edges m.id → n.size ≤ m.size) ∧
    (∀ n ∈ g.nodes, degCount g.edges n.id = maxNodeDeg g → n.size = 30) ∧
    (∀ n ∈ g.nodes, 10 < n.size) := by
  obtain ⟨hwf, hsize, _⟩ := process_csv_ok_spec pt ecf cA sA rnd rows layout g hok
  have hdegpos : ∀ n ∈ g.nodes, 1 ≤ degCount g.edges n.id := hwf.2.2
  have hmaxpos : ∀ n ∈ g.nodes, 1 ≤ maxNodeDeg g := by
    intro n hn
    have h1 := hdegpos n hn
    have h2 : degCount g.edges n.id ≤ maxNodeDeg g := by
      apply le_pyMax_of_mem
      exact List.mem_map.mpr ⟨n, hn, rfl⟩
    omega
  have hmaxQ : ∀ n ∈ g.nodes, (0 : ℚ) < ((maxNodeDeg g : ℕ) : ℚ) := by
    intro n hn
    exact_mod_cast hmaxpos n hn
  refine ⟨hsize, ?_, ?_, ?_⟩
  · intro n hn m hm hd
    rw [hsize n hn, hsize m hm]
    unfold calculate_node_size
    have hdq : ((degCount g.edges n.id : ℕ) : ℚ) ≤ ((degCount g.edges m.id : ℕ) : ℚ) := by
      exact_mod_cast hd
    have hdiv : ((degCount g.edges n.id : ℕ) : ℚ) / ((maxNodeDeg g : ℕ) : ℚ) ≤
        ((degCount g.edges m.id : ℕ) : ℚ) / ((maxNodeDeg g : ℕ) : ℚ) := by
      exact div_le_div_of_nonneg_right hdq (le_of_lt (hmaxQ n hn))
    linarith
  · intro n hn hd
    rw [hsize n hn, hd]
    unfold calculate_node_size
    rw [div_self (ne_of_gt (hmaxQ n hn))]
    norm_num
  · intro n hn
    rw [hsize n hn]
    unfold calculate_node_size
    have hdplus : (0 : ℚ) < ((degCount g.edges n.id : ℕ) : ℚ) := by
      exact_mod_cast hdegpos n hn
    have hdiv : (0 : ℚ) < ((degCount g.edges n.id : ℕ) : ℚ) /
        ((maxNodeDeg g : ℕ) : ℚ) := div_pos hdplus (hmaxQ n hn)
    linarith

theorem c4_witness :
    process_csv pt0 ec0 cA0 sA0 rn0 rows0 "grid" = Except.ok snap0 ∧
    ((∀ n ∈ snap0.nodes, n.size = calculate_node_size
      ((degCount snap0.edges n.id : ℕ) : ℚ) ((maxNodeDeg snap0 : ℕ) : ℚ)) ∧
    (∀ n ∈ snap0.nodes, ∀ m ∈ snap0.nodes,
      degCount snap0.edges n.id ≤ degCount snap0.edges m.id → n.size ≤ m.size) ∧
    (∀ n ∈ snap0.nodes, degCount snap0.edges n.id = maxNodeDeg snap0 →
      n.size = 30) ∧
    (∀ n ∈ snap0.nodes, 10 < n.size)) :=
  ⟨by decide, c4_node_size pt0 ec0 cA0 sA0 rn0 rows0 "grid" snap0 (by decide)⟩

/-- C5 (counterexample): a node list containing a node whose IP splits by '.'
into four octets (`10.0.0.1`) still makes the smart layout fail with the
structured IP error, because another node's IP (`1.2.x.4`) has four octets
whose third is not an integer, so `int(octets[2])` raises. -/
theorem c5_counterexample :
    smartNodeGood.ip = some "10.0.0.1" ∧
    (splitOnChar '.' ("10.0.0.1".toList)).length = 4 ∧
    calculate_smart_layout cA0 sA0 rn0 [smartNodeGood, smartNodeBad] [] = [] ∧
    update_layout cA0 sA0 rn0 ⟨[smartNodeGood, smartNodeBad], []⟩ "smart" =
      Except.error ipErrorMsg :=
  ⟨by decide, by decide, by decide, by decide⟩

/-- C5 (amended): on a node list with distinct ids and an edge list whose
endpoints all name nodes, the smart layout returns the empty result — which
`/layout` (and `/upload`) surface as the structured "all nodes must have IP
addresses" error — exactly when some node's IP splits into four octets whose
third octet is not an integer, or no node has a groupable four-octet IP.
Otherwise every node receives a position: a grouped node at its subnet-group
center (radius 4000) plus the subgroup offset (radius 600) plus `±300`
jitter, with z equal to its degree times 50; an ungroupable node by the
independent `±5000` random layout. -/
theorem c5_smart_layout (cA sA : ℕ → ℕ → ℚ) (rnd : ℚ → ℚ → ℕ → ℚ)
    (ns : List Node) (es : List Edge)
    (href : ∀ e ∈ es, e.source ∈ ns.map Node.id ∧ e.target ∈ ns.map Node.id)
    (hnd : (ns.map Node.id).Nodup) :
    (calculate_smart_layout cA sA rnd ns es = [] ↔
      (∃ n ∈ ns, ipClass n = IpClass.malformed) ∨
        (∀ n ∈ ns, ∀ t, ipClass n ≠ IpClass.grouped t)) ∧
    (calculate_smart_layout cA sA rnd ns es = [] →
      update_layout cA sA rnd ⟨ns, es⟩ "smart" = Except.error ipErrorMsg) ∧
    (calculate_smart_layout cA sA rnd ns es ≠ [] →
      (∀ n ∈ ns, (dlookup (calculate_smart_layout cA sA rnd ns es) n.id).isSome) ∧
      (∀ n ∈ ns, ∀ t, ipClass n = IpClass.grouped t →
        ∃ j gi si len total,
          dlookup (calculate_smart_layout cA sA rnd ns es) n.id = some
            (Pos.mk (4000 * cA gi total + 600 * cA si len + rnd (-300) 300 j)
                    (4000 * sA gi total + 600 * sA si len + rnd (-300) 300 (j + 1))
                    (((degCount es n.id : ℕ) : ℚ) * 50))) ∧
      (∀ n ∈ ns, ipClass n = IpClass.ungroupable →
        ∃ j, dlookup (calculate_smart_layout cA sA rnd ns es) n.id = some
          (Pos.mk (rnd (-5000) 5000 j) (rnd (-5000) 5000 (j + 1))
            (rnd (-5000) 5000 (j + 2))))) := by
  refine ⟨calculate_smart_layout_empty_iff cA sA rnd ns es href, ?_, ?_⟩
  · intro hemp
    unfold update_layout
    have hlp : layoutPositions cA sA rnd "smart" (Graph.mk ns es).nodes
        (Graph.mk ns es).edges = Except.error ipErrorMsg := by
      unfold layoutPositions
      rw [if_neg (by decide), if_neg (by decide), if_neg (by decide),
        if_pos rfl]
      show (if (calculate_smart_layout cA sA rnd ns es).isEmpty = true then
        Except.error ipErrorMsg
        else Except.ok (calculate_smart_layout cA sA rnd ns es)) =
        Except.error ipErrorMsg
      rw [hemp]
      rfl
    rw [hlp]
    rfl
  · intro hne
    exact ⟨calculate_smart_layout_covers cA sA rnd ns es href hne,
      fun n hn t hc => calculate_smart_layout_grouped_pos cA sA rnd ns es
        href hne n hn t hc,
      fun n hn hc => calculate_smart_layout_ungroupable_pos cA sA rnd ns es
        href hnd hne n hn hc⟩

theorem c5_witness :
    ((∀ e ∈ ([] : List Edge), e.source ∈ [smartNodeGood].map Node.id ∧
      e.target ∈ [smartNodeGood].map Node.id) ∧
     ([smartNodeGood].map Node.id).Nodup) ∧
    ((calculate_smart_layout cA0 sA0 rn0 [smartNodeGood] [] = [] ↔
      (∃ n ∈ [smartNodeGood], ipClass n = IpClass.malformed) ∨
        (∀ n ∈ [smartNodeGood], ∀ t, ipClass n ≠ IpClass.grouped t)) ∧
    (calculate_smart_layout cA0 sA0 rn0 [smartNodeGood] [] = [] →
      update_layout cA0 sA0 rn0 ⟨[smartNodeGood], []⟩ "smart" =
        Except.error ipErrorMsg) ∧
    (calculate_smart_layout cA0 sA0 rn0 [smartNodeGood] [] ≠ [] →
      (∀ n ∈ [smartNodeGood],
        (dlookup (calculate_smart_layout cA0 sA0 rn0 [smartNodeGood] []) n.id).isSome) ∧
      (∀ n ∈ [smartNodeGood], ∀ t, ipClass n = IpClass.grouped t →
        ∃ j gi si len total,
          dlookup (calculate_smart_layout cA0 sA0 rn0 [smartNodeGood] []) n.id = some
            (Pos.mk (4000 * cA0 gi total + 600 * cA0 si len + rn0 (-300) 300 j)
                    (4000 * sA0 gi total + 600 * sA0 si len + rn0 (-300) 300 (j + 1))
                    (((degCount [] n.id : ℕ) : ℚ) * 50))) ∧
      (∀ n ∈ [smartNodeGood], ipClass n = IpClass.ungroupable →
        ∃ j, dlookup (calculate_smart_layout cA0 sA0 rn0 [smartNodeGood] []) n.id = some
          (Pos.mk (rn0 (-5000) 5000 j) (rn0 (-5000) 5000 (j + 1))
            (rn0 (-5000) 5000 (j + 2)))))) :=
  ⟨⟨by decide, by decide⟩, c5_smart_layout cA0 sA0 rn0 [smartNodeGood] []
    (by decide) (by decide)⟩

/-- C6 (counterexample): a CSV whose `IpResolved` strips to the empty
hostname stores a snapshot containing the node id `""` with an incident
edge, yet `/highlight` with that node id returns the 400 "Node ID is
required" error instead of the edges touching it. -/
theorem c6_counterexample :
    process_csv pt0 ec0 cA0 sA0 rn0 rowsEmptyId "grid" = Except.ok snapEmptyId ∧
    "" ∈ snapEmptyId.nodes.map Node.id ∧
    snapEmptyId.edges.filter (fun e =>
      decide (e.source = "") || decide (e.target = "")) ≠ [] ∧
    highlight_data snapEmptyId (some "") = Except.error "Node ID is required" :=
  ⟨by decide, by decide, by decide, by decide⟩

/-- C6 (amended): for every stored snapshot (a successful import followed by
any successful `/layout` recomputations) and every non-empty node id `X`,
`/highlight` returns exactly the edges whose source or target equals `X`,
and its node list is exactly the nodes that are endpoints of those edges. -/
theorem c6_highlight_exact (pt : String → Option ℚ) (ecf : ℕ → ℕ → String)
    (cA sA : ℕ → ℕ → ℚ) (rnd : ℚ → ℚ → ℕ → ℚ) (rows : List Row)
    (layout : String) (g0 g : Graph)
    (hok : process_csv pt ecf cA sA rnd rows layout = Except.ok g0)
    (hreach : LayoutReach g0 g) (X : String) (hX : X ≠ "") :
    ∃ r, highlight_data g (some X) = Except.ok r ∧
      r.edges = g.edges.filter (fun e =>
        decide (e.source = X) || decide (e.target = X)) ∧
      (∀ n, n ∈ r.nodes ↔ n ∈ g.nodes ∧
        ∃ e ∈ r.edges, e.source = n.id ∨ e.target = n.id) := by
  have hwf := wf_reach g0 g
    (process_csv_ok_spec pt ecf cA sA rnd rows layout g0 hok).1 hreach
  have heq : highlight_data g (some X) = Except.ok
      ⟨g.nodes.filter (fun n => decide (n.id ∈ X ::
        (g.edges.filter (fun e =>
          decide (e.source = X) || decide (e.target = X))).foldr
          (fun e acc => e.source :: e.target :: acc) [])),
       g.edges.filter (fun e =>
         decide (e.source = X) || decide (e.target = X))⟩ := by
    show (if X = "" then Except.error "Node ID is required"
      else Except.ok (⟨g.nodes.filter (fun n => decide (n.id ∈ X ::
          (g.edges.filter (fun e =>
            decide (e.source = X) || decide (e.target = X))).foldr
            (fun e acc => e.source :: e.target :: acc) [])),
        g.edges.filter (fun e =>
          decide (e.source = X) || decide (e.target = X))⟩ : SubGraph)) = _
    rw [if_neg hX]
  rw [heq]
  refine ⟨_, rfl, rfl, ?_⟩
  intro n
  rw [List.mem_filter]
  constructor
  · rintro ⟨hn, hmem⟩
    refine ⟨hn, ?_⟩
    have hm := of_decide_eq_true hmem
    rcases List.mem_cons.mp hm with hm' | hm'
    · have hdeg := hwf.2.2 n hn
      rcases exists_edge_of_degPos g.edges n.id hdeg with ⟨e, he, hend⟩
      refine ⟨e, List.mem_filter.mpr ⟨he, ?_⟩, hend⟩
      rcases hend with h | h <;> simp [h, ← hm']
    · rcases (mem_endpoints _ n.id).mp hm' with ⟨e, he, hend⟩
      exact ⟨e, he, hend⟩
  · rintro ⟨hn, hex⟩
    refine ⟨hn, decide_eq_true ?_⟩
    exact List.mem_cons_of_mem _ ((mem_endpoints _ n.id).mpr hex)

theorem c6_witness :
    (process_csv pt0 ec0 cA0 sA0 rn0 rows0 "grid" = Except.ok snap0 ∧
     ("client1" : String) ≠ "") ∧
    (∃ r, highlight_data snap0 (some "client1") = Except.ok r ∧
      r.edges = snap0.edges.filter (fun e =>
        decide (e.source = "client1") || decide (e.target = "client1")) ∧
      (∀ n, n ∈ r.nodes ↔ n ∈ snap0.nodes ∧
        ∃ e ∈ r.edges, e.source = n.id ∨ e.target = n.id)) :=
  ⟨⟨by decide, by decide⟩, c6_highlight_exact pt0 ec0 cA0 sA0 rn0 rows0 "grid"
    snap0 snap0 (by decide) Relation.ReflTransGen.refl "client1" (by decide)⟩

/-- C7: in every snapshot a successful import produces, any two edges with
the same unordered endpoint pair carry the identical color string, and every
edge's color is the edge-color function applied to its group's edge count
and the maximum group edge count. -/
theorem c7_edge_group_color (pt : String → Option ℚ) (ecf : ℕ → ℕ → String)
    (cA sA : ℕ → ℕ → ℚ) (rnd : ℚ → ℚ → ℕ → ℚ) (rows : List Row)
    (layout : String) (g : Graph)
    (hok : process_csv pt ecf cA sA rnd rows layout = Except.ok g) :
    (∀ e1 ∈ g.edges, ∀ e2 ∈ g.edges,
      sortPair e1.source e1.target = sortPair e2.source e2.target →
      e1.color = e2.color) ∧
    (∀ e ∈ g.edges, e.color =
      ecf (groupSize g.edges e.source e.target) (maxGroupSize g.edges)) := by
  obtain ⟨_, _, hcol⟩ := process_csv_ok_spec pt ecf cA sA rnd rows layout g hok
  refine ⟨?_, hcol⟩
  intro e1 he1 e2 he2 hpair
  rw [hcol e1 he1, hcol e2 he2]
  have : groupSize g.edges e1.source e1.target =
      groupSize g.edges e2.source e2.target := by
    unfold groupSize
    rw [hpair]
  rw [this]

theorem c7_witness :
    process_csv pt0 ec0 cA0 sA0 rn0 rows0 "grid" = Except.ok snap0 ∧
    ((∀ e1 ∈ snap0.edges, ∀ e2 ∈ snap0.edges,
      sortPair e1.source e1.target = sortPair e2.source e2.target →
      e1.color = e2.color) ∧
    (∀ e ∈ snap0.edges, e.color =
      ec0 (groupSize snap0.edges e.source e.target) (maxGroupSize snap0.edges))) :=
  ⟨by decide, c7_edge_group_color pt0 ec0 cA0 sA0 rn0 rows0 "grid" snap0
    (by decide)⟩

/-- C8: for every non-empty node list with distinct ids, the grid layout
places the node at index `i` at `((i mod g) * 300, (i div g) * 300, 0)` where
`g = ceilSqrt n` is the least natural with `n ≤ g * g` (the ceiling of the
square root); all cells lie inside the `g × g` grid and no two indices share
a cell, at spacing exactly 300. -/
theorem c8_grid_layout (ns : List Node) (hne : ns ≠ [])
    (hnd : (ns.map Node.id).Nodup) :
    (ns.length ≤ ceilSqrt ns.length * ceilSqrt ns.length) ∧
    (∀ k, ns.length ≤ k * k → ceilSqrt ns.length ≤ k) ∧
    (∀ i, ∀ hi : i < ns.length,
      dlookup (calculate_grid_layout ns) (ns.get ⟨i, hi⟩).id =
        some ⟨((i % ceilSqrt ns.length : ℕ) : ℚ) * 300,
              ((i / ceilSqrt ns.length : ℕ) : ℚ) * 300, 0⟩ ∧
      i % ceilSqrt ns.length < ceilSqrt ns.length ∧
      i / ceilSqrt ns.length < ceilSqrt ns.length) ∧
    (∀ i j, i < ns.length → j < ns.length →
      i % ceilSqrt ns.length = j % ceilSqrt ns.length →
      i / ceilSqrt ns.length = j / ceilSqrt ns.length → i = j) := by
  have hspec := ceilSqrt_spec ns.length
  have hlen : 1 ≤ ns.length := by
    cases ns with
    | nil => exact absurd rfl hne
    | cons a l => simp
  have hg : 1 ≤ ceilSqrt ns.length := ceilSqrt_pos ns.length hlen
  refine ⟨hspec.1, hspec.2, ?_, ?_⟩
  · intro i hi
    refine ⟨calculate_grid_layout_lookup ns hnd i hi, ?_, ?_⟩
    · exact Nat.mod_lt _ (by omega)
    · apply Nat.div_lt_iff_lt_mul (by omega) |>.mpr
      calc i < ns.length := hi
        _ ≤ ceilSqrt ns.length * ceilSqrt ns.length := hspec.1
  · intro i j _ _ hmod hdiv
    have h1 := Nat.div_add_mod i (ceilSqrt ns.length)
    have h2 := Nat.div_add_mod j (ceilSqrt ns.length)
    rw [hdiv, hmod] at h1
    omega

theorem c8_witness :
    (([{ id := "a", label := "a" }, { id := "b", label := "b" },
       { id := "c", label := "c" }] : List Node) ≠ [] ∧
     (([{ id := "a", label := "a" }, { id := "b", label := "b" },
       { id := "c", label := "c" }] : List Node).map Node.id).Nodup) ∧
    dlookup (calculate_grid_layout
      [{ id := "a", label := "a" }, { id := "b", label := "b" },
       { id := "c", label := "c" }]) "c" = some ⟨0, 300, 0⟩ :=
  ⟨⟨by decide, by decide⟩, by
    have h := (c8_grid_layout
      [{ id := "a", label := "a" }, { id := "b", label := "b" },
       { id := "c", label := "c" }] (by decide) (by decide)).2.2.1 2 (by decide)
    exact h.1.trans (by decide)⟩

/-- C9 (counterexample): the empty string is a node id that does not occur in
the stored snapshot, yet `/highlight` with it returns the 400 "Node ID is
required" error rather than a 200 response with empty lists. -/
theorem c9_counterexample :
    process_csv pt0 ec0 cA0 sA0 rn0 rows0 "grid" = Except.ok snap0 ∧
    "" ∉ snap0.nodes.map Node.id ∧
    highlight_data snap0 (some "") = Except.error "Node ID is required" :=
  ⟨by decide, by decide, by decide⟩

/-- C9 (amended): when `/highlight` is called on a stored snapshot with a
non-empty `node_id` that does not occur as any node id, it returns the 200
response with empty node and edge lists rather than an error. -/
theorem c9_highlight_unknown (pt : String → Option ℚ) (ecf : ℕ → ℕ → String)
    (cA sA : ℕ → ℕ → ℚ) (rnd : ℚ → ℚ → ℕ → ℚ) (rows : List Row)
    (layout : String) (g0 g : Graph)
    (hok : process_csv pt ecf cA sA rnd rows layout = Except.ok g0)
    (hreach : LayoutReach g0 g) (X : String) (hX : X ≠ "")
    (hnot : X ∉ g.nodes.map Node.id) :
    highlight_data g (some X) = Except.ok ⟨[], []⟩ := by
  have hwf := wf_reach g0 g
    (process_csv_ok_spec pt ecf cA sA rnd rows layout g0 hok).1 hreach
  have hes : g.edges.filter (fun e =>
      decide (e.source = X) || decide (e.target = X)) = [] := by
    apply List.filter_eq_nil.mpr
    intro e he
    have href := hwf.2.1 e he
    simp only [Bool.or_eq_true, decide_eq_true_eq, not_or]
    constructor
    · intro hh
      exact hnot (hh ▸ href.1)
    · intro hh
      exact hnot (hh ▸ href.2)
  show (if X = "" then Except.error "Node ID is required"
    else Except.ok (⟨g.nodes.filter (fun n => decide (n.id ∈ X ::
        (g.edges.filter (fun e =>
          decide (e.source = X) || decide (e.target = X))).foldr
        (fun e acc => e.source :: e.target :: acc) [])),
      g.edges.filter (fun e =>
        decide (e.source = X) || decide (e.target = X))⟩ : SubGraph)) =
    Except.ok ⟨[], []⟩
  rw [if_neg hX, hes]
  have hns : g.nodes.filter (fun n => decide (n.id ∈ X ::
      (([] : List Edge).foldr (fun e acc => e.source :: e.target :: acc) []))) = [] := by
    apply List.filter_eq_nil.mpr
    intro n hn
    simp only [List.foldr_nil, decide_eq_true_eq, List.mem_singleton]
    intro hh
    exact hnot (hh ▸ List.mem_map.mpr ⟨n, hn, rfl⟩)
  rw [hns]

theorem c9_witness :
    (process_csv pt0 ec0 cA0 sA0 rn0 rows0 "grid" = Except.ok snap0 ∧
     ("zzz" : String) ≠ "" ∧ "zzz" ∉ snap0.nodes.map Node.id) ∧
    highlight_data snap0 (some "zzz") = Except.ok ⟨[], []⟩ :=
  ⟨⟨by decide, by decide, by decide⟩, c9_highlight_unknown pt0 ec0 cA0 sA0 rn0
    rows0 "grid" snap0 snap0 (by decide) Relation.ReflTransGen.refl "zzz"
    (by decide) (by decide)⟩

/-- C10: when a processed row first creates the target (Computer) node — the
stripped computer name is not yet a node id and differs from the row's
resolved source id — the created node has no `ip` field and its label embeds
the row's source IP as `"computer (source_ip)"` exactly when that IP is in
the resolver mapping, else it is just the stripped computer name. -/
theorem c10_target_label (pt : String → Option ℚ)
    (ipmap : List (String × String)) (s : BState) (row : Row) (ts : ℚ)
    (h1 : row.eventTime ≠ "") (h2 : strip_domain row.computer ≠ "")
    (h3 : row.ipAddress ≠ "") (hpt : pt row.eventTime = some ts)
    (habs : strip_domain row.computer ∉ s.nodes.map Node.id)
    (hne : strip_domain row.computer ≠ sourceIdOf ipmap row.ipAddress) :
    ∃ s' n, build_step pt ipmap s row = Except.ok s' ∧
      nfind s'.nodes (strip_domain row.computer) = some n ∧
      n.label = (if (dlookup ipmap row.ipAddress).isSome
        then strip_domain row.computer ++ " (" ++ row.ipAddress ++ ")"
        else strip_domain row.computer) ∧
      n.ip = none :=
  build_step_creates_computer pt ipmap s row ts h1 h2 h3 hpt habs hne

theorem c10_witness :
    (("t1" : String) ≠ "" ∧ strip_domain "host1.local" ≠ "" ∧
     ("10.0.0.1" : String) ≠ "" ∧ pt0 "t1" = some 5 ∧
     strip_domain "host1.local" ∉
       (([] : List Node).map Node.id) ∧
     strip_domain "host1.local" ≠
       sourceIdOf [("10.0.0.1", "client1")] "10.0.0.1") ∧
    (∃ s' n, build_step pt0 [("10.0.0.1", "client1")] ⟨[], [], [], []⟩
        { eventTime := "t1", computer := "host1.local",
          ipAddress := "10.0.0.1", user := "alice",
          ipResolved := "client1.local" } = Except.ok s' ∧
      nfind s'.nodes (strip_domain "host1.local") = some n ∧
      n.label = (if (dlookup [("10.0.0.1", "client1")] "10.0.0.1").isSome
        then strip_domain "host1.local" ++ " (" ++ "10.0.0.1" ++ ")"
        else strip_domain "host1.local") ∧
      n.ip = none) :=
  ⟨⟨by decide, by decide, by decide, by decide, by decide, by decide⟩,
   c10_target_label pt0 [("10.0.0.1", "client1")] ⟨[], [], [], []⟩
     { eventTime := "t1", computer := "host1.local", ipAddress := "10.0.0.1",
       user := "alice", ipResolved := "client1.local" } 5
     (by decide) (by decide) (by decide) (by decide) (by decide) (by decide)⟩

end Trackoon
